import Mathlib

/-!
# HLS MPEG-TS segment generator

A shallow embedding of `internal/hls/muxer_ts_generator.go`: the generator
`muxerTSGenerator` with its two entry points `writeH264` and `writeAAC`.

Conventions of the embedding

* `time.Duration` and `time.Time` are `Int` (nanoseconds); every `+` and `-`
  of the source on a duration goes through `wrap64`, the int64 wrap-around.
* a byte is a `Nat` below 256, a byte slice is a `List Nat`.
* a Go pointer that may be nil is an `Option`; the pointee is held by value.
* the collaborators the generator calls but does not define (the Annex-B and
  ADTS encoders, the DTS estimator, the write methods of a segment) are the
  fields of an `Env`; the wall clock read by `time.Now()` is the argument `now`.
* every call returns an `Outcome`: a runtime panic, or the returned error, the
  generator after the call and the calls made on the collaborators, in order.
-/

namespace hls

/-! ## Durations -/

/-- Go int64 wrap-around of a mathematical integer. -/
def wrap64 (x : Int) : Int := (x + 2 ^ 63) % 2 ^ 64 - 2 ^ 63

/-- Subtraction of two `time.Duration` values. -/
def durSub (a b : Int) : Int := wrap64 (a - b)

/-- Addition of two `time.Duration` values. -/
def durAdd (a b : Int) : Int := wrap64 (a + b)

/-- The constant `time.Millisecond`, in nanoseconds. -/
def millisecond : Int := 1000000

/-- The constant `time.Second`, in nanoseconds. -/
def second : Int := 1000000000

/-- An offset between PCR and PTS/DTS is needed to avoid PCR > PTS. -/
def pcrOffset : Int := 500 * millisecond

/-- Minimum number of audio access units of a segment of an audio-only stream. -/
def segmentMinAUCount : Int := 100

/-- The constant `h264.NALUTypeIDR`. -/
def NALUTypeIDR : Nat := 5

/-- The constant `h264.NALUTypeAccessUnitDelimiter`. -/
def NALUTypeAccessUnitDelimiter : Nat := 9

/-! ## Data model -/

/-- A Go `error` value. -/
structure GoError where
  msg : String
deriving DecidableEq, Repr

/-- The track `gortsplib.TrackH264`; the generator only tests the pointer for nil. -/
structure TrackH264 where
  payloadType : Nat
deriving DecidableEq, Repr

/-- The track `gortsplib.TrackAAC`, with the three values the generator reads from it. -/
structure TrackAAC where
  type : Int
  clockRate : Int
  channelCount : Int
deriving DecidableEq, Repr

/-- The packet `aac.ADTSPacket` built by `writeAAC` for every access unit. -/
structure ADTSPacket where
  type : Int
  sampleRate : Int
  channelCount : Int
  au : List Nat
deriving DecidableEq, Repr

/-- The value `muxerTSWriter`, created by `newMuxerTSWriter(videoTrack, audioTrack)`. -/
structure muxerTSWriter where
  videoTrack : Option TrackH264
  audioTrack : Option TrackAAC
deriving DecidableEq, Repr

/-- The fields of `muxerTSSegment` that the generator reads or writes
(`startPTS`, `endPTS`, `buf.Len()`, `audioAUCount`) and the arguments of its
constructor. -/
structure muxerTSSegment where
  hlsSegmentMaxSize : Nat
  videoTrack : Option TrackH264
  startPTS : Option Int
  endPTS : Int
  bufLen : Nat
  audioAUCount : Int
deriving DecidableEq, Repr

/-- Modelled from the spec: `newMuxerTSSegment` (internal/hls/muxer_ts_segment.go
is not among the sources). Spec section 3: a segment is "created empty and
open", its start PTS is optional; the fields have their Go zero values. -/
def newMuxerTSSegment (hlsSegmentMaxSize : Nat) (videoTrack : Option TrackH264)
    (_writer : muxerTSWriter) : muxerTSSegment :=
  { hlsSegmentMaxSize := hlsSegmentMaxSize
    videoTrack := videoTrack
    startPTS := none
    endPTS := 0
    bufLen := 0
    audioAUCount := 0 }

/-- The generator `muxerTSGenerator`. The DTS estimator is held as the list of
the values fed to it since `h264.NewDTSEstimator()`, oldest first. The playlist
`streamPlaylist` is a collaborator: the segments pushed to it are events. -/
structure muxerTSGenerator where
  hlsSegmentCount : Int
  hlsSegmentDuration : Int
  hlsSegmentMaxSize : Nat
  videoTrack : Option TrackH264
  audioTrack : Option TrackAAC
  writer : muxerTSWriter
  currentSegment : Option muxerTSSegment
  videoDTSEst : Option (List Int)
  startPCR : Int
  startPTS : Int
deriving DecidableEq, Repr

/-- The constructor `newMuxerTSGenerator`; the fields it does not set have their
Go zero values. -/
def newMuxerTSGenerator (hlsSegmentCount : Int) (hlsSegmentDuration : Int)
    (hlsSegmentMaxSize : Nat) (videoTrack : Option TrackH264)
    (audioTrack : Option TrackAAC) : muxerTSGenerator :=
  { hlsSegmentCount := hlsSegmentCount
    hlsSegmentDuration := hlsSegmentDuration
    hlsSegmentMaxSize := hlsSegmentMaxSize
    videoTrack := videoTrack
    audioTrack := audioTrack
    writer := { videoTrack := videoTrack, audioTrack := audioTrack }
    currentSegment := none
    videoDTSEst := none
    startPCR := 0
    startPTS := 0 }

/-- A call made by the generator on one of its collaborators. -/
inductive Event where
  | newSegment
  | newDTSEstimator
  | pushSegment (seg : muxerTSSegment)
  | feedDTS (v : Int)
  | encodeAnnexB (nalus : List (List Nat))
  | encodeADTS (pkts : List ADTSPacket)
  | segmentWriteH264 (startPCR dts pts : Int) (idrPresent : Bool) (enc : List Nat)
  | segmentWriteAAC (startPCR pts : Int) (enc : List Nat) (ausLen : Int)
deriving DecidableEq, Repr

/-- The two runtime panics the generator can raise. -/
inductive Panic where
  | indexOutOfRange
  | nilDereference
deriving DecidableEq, Repr

/-- What a call that returns leaves behind. -/
structure Ret where
  err : Option GoError
  m : muxerTSGenerator
  events : List Event
deriving DecidableEq, Repr

/-- The outcome of a call of `writeH264` or `writeAAC`. -/
inductive Outcome where
  | panicked (p : Panic)
  | returned (r : Ret)
deriving DecidableEq, Repr

/-- The collaborators of the generator.

* `encodeAnnexB`, `encodeADTS`: the encoders of gortsplib;
* `dtsFeed h`: what `Feed` returns when `h` is the list of all values fed to
  the estimator since it was created, the current one last;
* `segmentWriteH264 seg startPCR dts pts idrPresent enc` and
  `segmentWriteAAC seg startPCR pts enc ausLen`: the segment after the call and
  the error returned. -/
structure Env where
  encodeAnnexB : List (List Nat) → Except GoError (List Nat)
  encodeADTS : List ADTSPacket → Except GoError (List Nat)
  dtsFeed : List Int → Int
  segmentWriteH264 :
    muxerTSSegment → Int → Int → Int → Bool → List Nat → muxerTSSegment × Option GoError
  segmentWriteAAC :
    muxerTSSegment → Int → Int → List Nat → Int → muxerTSSegment × Option GoError

/-! ## writeH264 -/

/-- The closure `idrPresent` of `writeH264` (lines 55-63): `none` is the panic of
`nalu[0]` on an empty NALU. -/
def idrPresent : List (List Nat) → Option Bool
  | [] => some false
  | [] :: _ => none
  | (b :: _) :: rest =>
    if b &&& 0x1F = NALUTypeIDR then some true else idrPresent rest

/-- The rebasing `pts - m.startPTS + pcrOffset` (lines 78, 125 and 142). -/
def rebase (pts startPTS : Int) : Int := durAdd (durSub pts startPTS) pcrOffset

/-- The test `(pts-*m.currentSegment.startPTS) >= m.hlsSegmentDuration` behind
the guard `m.currentSegment.startPTS != nil` (lines 82-83 and 129-130). -/
def durationReached (seg : muxerTSSegment) (pts hlsSegmentDuration : Int) : Bool :=
  match seg.startPTS with
  | none => false
  | some s => decide (durSub pts s ≥ hlsSegmentDuration)

/-- Lines 65-88 of `writeH264`: `none` is the early `return nil`; otherwise the
generator, the rebased `pts` and the calls made. -/
def lifecycleH264 (now pts : Int) (idr : Bool) (m : muxerTSGenerator) :
    Option (muxerTSGenerator × Int × List Event) :=
  match m.currentSegment with
  | none =>
    if !idr then none
    else
      some ({ m with
              currentSegment := some (newMuxerTSSegment m.hlsSegmentMaxSize m.videoTrack m.writer)
              startPCR := now
              startPTS := pts
              videoDTSEst := some [] },
            pcrOffset, [Event.newSegment, Event.newDTSEstimator])
  | some seg =>
    let pts1 := rebase pts m.startPTS
    if idr && durationReached seg pts1 m.hlsSegmentDuration then
      some ({ m with
              currentSegment := some (newMuxerTSSegment m.hlsSegmentMaxSize m.videoTrack m.writer) },
            pts1, [Event.pushSegment { seg with endPTS := pts1 }, Event.newSegment])
    else
      some (m, pts1, [])

/-- Lines 90-113 of `writeH264`, entered with the rebased `pts` and the calls
`pre` made so far. -/
def finishH264 (env : Env) (pts : Int) (idr : Bool) (nalus : List (List Nat))
    (pre : List Event) (m : muxerTSGenerator) : Outcome :=
  let nalus1 := [NALUTypeAccessUnitDelimiter, 240] :: nalus
  match m.videoDTSEst with
  | none => Outcome.panicked Panic.nilDereference
  | some fed =>
    let v := durSub pts m.startPTS
    let dts := durAdd (env.dtsFeed (fed ++ [v])) pcrOffset
    let m1 := { m with videoDTSEst := some (fed ++ [v]) }
    match m1.currentSegment with
    | none => Outcome.panicked Panic.nilDereference
    | some seg =>
      match env.encodeAnnexB nalus1 with
      | Except.error e =>
        Outcome.returned
          { err := some e
            m := { m1 with currentSegment := none }
            events := pre ++ [Event.feedDTS v, Event.encodeAnnexB nalus1]
              ++ (if seg.bufLen > 0 then [Event.pushSegment seg] else []) }
      | Except.ok enc =>
        match env.segmentWriteH264 seg m1.startPCR dts pts idr enc with
        | (seg1, some e) =>
          Outcome.returned
            { err := some e
              m := { m1 with currentSegment := none }
              events := pre ++ [Event.feedDTS v, Event.encodeAnnexB nalus1,
                  Event.segmentWriteH264 m1.startPCR dts pts idr enc]
                ++ (if seg1.bufLen > 0 then [Event.pushSegment seg1] else []) }
        | (seg1, none) =>
          Outcome.returned
            { err := none
              m := { m1 with currentSegment := some seg1 }
              events := pre ++ [Event.feedDTS v, Event.encodeAnnexB nalus1,
                  Event.segmentWriteH264 m1.startPCR dts pts idr enc] }

/-- The method `muxerTSGenerator.writeH264`, called when the clock reads `now`. -/
def writeH264 (env : Env) (now pts : Int) (nalus : List (List Nat))
    (m : muxerTSGenerator) : Outcome :=
  match idrPresent nalus with
  | none => Outcome.panicked Panic.indexOutOfRange
  | some idr =>
    match lifecycleH264 now pts idr m with
    | none => Outcome.returned { err := none, m := m, events := [] }
    | some (m1, pts1, pre) => finishH264 env pts1 idr nalus pre m1

/-! ## writeAAC -/

/-- Lines 117-143 of `writeAAC`: `none` is the early `return nil`. -/
def lifecycleAAC (now pts : Int) (m : muxerTSGenerator) :
    Option (muxerTSGenerator × Int × List Event) :=
  if m.videoTrack = none then
    match m.currentSegment with
    | none =>
      some ({ m with
              currentSegment := some (newMuxerTSSegment m.hlsSegmentMaxSize m.videoTrack m.writer)
              startPCR := now
              startPTS := pts },
            pcrOffset, [Event.newSegment])
    | some seg =>
      let pts1 := rebase pts m.startPTS
      if decide (seg.audioAUCount ≥ segmentMinAUCount)
          && durationReached seg pts1 m.hlsSegmentDuration then
        some ({ m with
                currentSegment := some (newMuxerTSSegment m.hlsSegmentMaxSize m.videoTrack m.writer) },
              pts1, [Event.pushSegment { seg with endPTS := pts1 }, Event.newSegment])
      else
        some (m, pts1, [])
  else
    match m.currentSegment with
    | none => none
    | some _ => some (m, rebase pts m.startPTS, [])

/-- Lines 145-154 of `writeAAC`: one packet per access unit; `none` is the panic
of reading a nil `audioTrack`, which happens only when there is a unit. -/
def makePackets (audioTrack : Option TrackAAC) (aus : List (List Nat)) :
    Option (List ADTSPacket) :=
  match aus, audioTrack with
  | [], _ => some []
  | _ :: _, none => none
  | _ :: _, some t =>
    some (aus.map fun au =>
      { type := t.type, sampleRate := t.clockRate, channelCount := t.channelCount, au := au })

/-- Lines 145-171 of `writeAAC`, entered with the rebased `pts` and the calls
`pre` made so far. -/
def finishAAC (env : Env) (pts : Int) (aus : List (List Nat))
    (pre : List Event) (m : muxerTSGenerator) : Outcome :=
  match makePackets m.audioTrack aus with
  | none => Outcome.panicked Panic.nilDereference
  | some pkts =>
    match env.encodeADTS pkts with
    | Except.error e =>
      Outcome.returned { err := some e, m := m, events := pre ++ [Event.encodeADTS pkts] }
    | Except.ok enc =>
      match m.currentSegment with
      | none => Outcome.panicked Panic.nilDereference
      | some seg =>
        match env.segmentWriteAAC seg m.startPCR pts enc aus.length with
        | (seg1, some e) =>
          Outcome.returned
            { err := some e
              m := { m with currentSegment := none }
              events := pre ++ [Event.encodeADTS pkts,
                  Event.segmentWriteAAC m.startPCR pts enc aus.length]
                ++ (if seg1.bufLen > 0 then [Event.pushSegment seg1] else []) }
        | (seg1, none) =>
          Outcome.returned
            { err := none
              m := { m with currentSegment := some seg1 }
              events := pre ++ [Event.encodeADTS pkts,
                  Event.segmentWriteAAC m.startPCR pts enc aus.length] }

/-- The method `muxerTSGenerator.writeAAC`, called when the clock reads `now`. -/
def writeAAC (env : Env) (now pts : Int) (aus : List (List Nat))
    (m : muxerTSGenerator) : Outcome :=
  match lifecycleAAC now pts m with
  | none => Outcome.returned { err := none, m := m, events := [] }
  | some (m1, pts1, pre) => finishAAC env pts1 aus pre m1

/-! ## Traces -/

/-- One call on the generator. -/
inductive Call where
  | h264 (now pts : Int) (nalus : List (List Nat))
  | aac (now pts : Int) (aus : List (List Nat))
deriving DecidableEq, Repr

/-- The outcome of one call. -/
def step (env : Env) (c : Call) (m : muxerTSGenerator) : Outcome :=
  match c with
  | Call.h264 now pts nalus => writeH264 env now pts nalus m
  | Call.aac now pts aus => writeAAC env now pts aus m

/-- The calls of a list, one after the other, each from the generator left by
the one before; `none` when one of them panics. -/
def run (env : Env) : List Call → muxerTSGenerator → Option (List Ret)
  | [], _ => some []
  | c :: cs, m =>
    match step env c m with
    | Outcome.panicked _ => none
    | Outcome.returned r =>
      match run env cs r.m with
      | none => none
      | some rs => some (r :: rs)

/-- All the calls made on the collaborators along a trace, in order. -/
def eventsOf : List Ret → List Event
  | [] => []
  | r :: rs => r.events ++ eventsOf rs

/-- The generator at the end of a trace that started from `m`. -/
def finalOf (m : muxerTSGenerator) : List Ret → muxerTSGenerator
  | [] => m
  | r :: rs => finalOf r.m rs

/-- The segments pushed to the playlist by a list of events, in order. -/
def pushed : List Event → List muxerTSSegment
  | [] => []
  | Event.pushSegment seg :: es => seg :: pushed es
  | _ :: es => pushed es

/-- A segment boundary: the calls of a `writeH264` or `writeAAC` begin with the
push of the sealed segment followed by the creation of its successor. -/
def sealsAndReplaces : List Event → Bool
  | Event.pushSegment _ :: Event.newSegment :: _ => true
  | _ => false

/-- The type code `nalu[0] & 0x1F` of a NALU, when it has a first byte. -/
def naluType (nalu : List Nat) : Option Nat := nalu.head?.map (· &&& 0x1F)

/-- Reading a list of events with the flag "a segment was created and nothing
was written to it yet": `none` as soon as the first write after a creation is
an audio write or a video write without IDR, otherwise the flag at the end. -/
def scanStarts : Bool → List Event → Option Bool
  | fresh, [] => some fresh
  | _, Event.newSegment :: es => scanStarts true es
  | fresh, Event.segmentWriteH264 _ _ _ idr _ :: es =>
    if fresh && !idr then none else scanStarts false es
  | fresh, Event.segmentWriteAAC _ _ _ _ :: es =>
    if fresh then none else scanStarts false es
  | fresh, Event.newDTSEstimator :: es => scanStarts fresh es
  | fresh, Event.pushSegment _ :: es => scanStarts fresh es
  | fresh, Event.feedDTS _ :: es => scanStarts fresh es
  | fresh, Event.encodeAnnexB _ :: es => scanStarts fresh es
  | fresh, Event.encodeADTS _ :: es => scanStarts fresh es

/-- Every segment created in the list of events starts on an IDR-bearing video
write. -/
def startsOnIDR (es : List Event) : Bool := (scanStarts false es).isSome

/-- The start PTS of a segment is the PTS of the first unit written to it: a
successful video write leaves the start PTS it found, or its own PTS when
there was none. -/
def StartRule (env : Env) : Prop :=
  ∀ seg startPCR dts pts idr enc seg1,
    env.segmentWriteH264 seg startPCR dts pts idr enc = (seg1, none) →
    seg1.startPTS = some (seg.startPTS.getD pts)

/-! ## A sample environment

An instance of `Env` on which the definitions above can be evaluated. -/

/-- Sample Annex-B encoder: a four-byte start code before every NALU; an empty
NALU is rejected as malformed input. -/
def sampleEncodeAnnexB (nalus : List (List Nat)) : Except GoError (List Nat) :=
  if nalus.any List.isEmpty then Except.error { msg := "invalid NALU" }
  else Except.ok (nalus.foldr (fun n acc => [0, 0, 0, 1] ++ n ++ acc) [])

/-- The sample rates that have an index in an ADTS header. -/
def sampleRates : List Int :=
  [96000, 88200, 64000, 48000, 44100, 32000, 24000, 22050, 16000, 12000, 11025, 8000, 7350]

/-- Sample ADTS encoder: a seven-byte header before every access unit; an empty
access unit and a sample rate without ADTS index are rejected as malformed
input. -/
def sampleEncodeADTS (pkts : List ADTSPacket) : Except GoError (List Nat) :=
  if pkts.any (fun p => p.au.isEmpty || !(sampleRates.contains p.sampleRate)) then
    Except.error { msg := "invalid ADTS packet" }
  else Except.ok (pkts.foldr (fun p acc => [255, 241, 0, 0, 0, 0, 252] ++ p.au ++ acc) [])

/-- The state of the sample DTS estimator: the number of calls of `Feed` that
are still answered by a fixed value, the DTS returned last and the PTS fed
last. -/
structure DTSEstimatorState where
  initializing : Nat
  prevDTS : Int
  prevPTS : Int
deriving DecidableEq, Repr

/-- One call of `Feed` on the sample DTS estimator, after `h264.DTSEstimator` of
gortsplib: the first call returns 0, the second 1 ms; a later call returns the
PTS fed before when the PTS grows, and else 1 ms more than the DTS returned
before. -/
def DTSEstimatorState.feed (d : DTSEstimatorState) (pts : Int) : DTSEstimatorState × Int :=
  if d.initializing = 2 then ({ d with initializing := 1 }, 0)
  else if d.initializing = 1 then
    ({ initializing := 0, prevDTS := millisecond, prevPTS := pts }, millisecond)
  else
    let dts := if pts > d.prevPTS then d.prevPTS else durAdd d.prevDTS millisecond
    ({ d with prevDTS := dts, prevPTS := pts }, dts)

/-- Sample DTS estimator: what the last `Feed` returns when the values of the
list are fed, in order, to an estimator just created. -/
def sampleDTSFeed (fed : List Int) : Int :=
  (fed.foldl (fun (s : DTSEstimatorState × Int) v => s.1.feed v)
    ({ initializing := 2, prevDTS := 0, prevPTS := 0 }, 0)).2

/-- Modelled from the spec: the write methods of `muxerTSSegment`
(internal/hls/muxer_ts_segment.go is not among the sources). Spec sections 3
and 7: a write that would exceed the maximum byte size of the segment fails and
nothing is truncated; otherwise the buffer grows by the written bytes, the first
write establishes the start PTS and the units written are counted. -/
def sampleSegmentWrite (seg : muxerTSSegment) (pts : Int) (enc : List Nat) (ausLen : Int) :
    muxerTSSegment × Option GoError :=
  if seg.bufLen + enc.length > seg.hlsSegmentMaxSize then
    (seg, some { msg := "reached maximum segment size" })
  else
    ({ seg with
       bufLen := seg.bufLen + enc.length
       startPTS := some (seg.startPTS.getD pts)
       endPTS := max seg.endPTS pts
       audioAUCount := seg.audioAUCount + ausLen }, none)

/-- The sample environment. -/
def sampleEnv : Env :=
  { encodeAnnexB := sampleEncodeAnnexB
    encodeADTS := sampleEncodeADTS
    dtsFeed := sampleDTSFeed
    segmentWriteH264 := fun seg _ _ pts _ enc => sampleSegmentWrite seg pts enc 0
    segmentWriteAAC := fun seg _ pts enc ausLen => sampleSegmentWrite seg pts enc ausLen }

/-- A video track. -/
def sampleVideoTrack : TrackH264 := { payloadType := 96 }

/-- An audio track: AAC-LC, 48 kHz, stereo. -/
def sampleAudioTrack : TrackAAC := { type := 2, clockRate := 48000, channelCount := 2 }

/-- A generator with a video and an audio track, a window of 3 segments of 2 s
and at most `maxSize` bytes per segment. -/
def sampleGenerator (maxSize : Nat) : muxerTSGenerator :=
  newMuxerTSGenerator 3 (2 * second) maxSize (some sampleVideoTrack) (some sampleAudioTrack)

/-- An access unit with one IDR slice. -/
def idrUnit : List (List Nat) := [[0x65, 0x88, 0x84]]

/-- An access unit with one non-IDR slice. -/
def nonIDRUnit : List (List Nat) := [[0x41, 0x9a, 0x24]]

/-- The generator after the first unit of the scenario: one segment open since
the clock read 100, holding one IDR unit of PTS 0. -/
def openedSegment : muxerTSSegment :=
  { hlsSegmentMaxSize := 1000
    videoTrack := some sampleVideoTrack
    startPTS := some (500 * millisecond)
    endPTS := 500 * millisecond
    bufLen := 13
    audioAUCount := 0 }

/-- The generator that holds `openedSegment`. -/
def openedGenerator : muxerTSGenerator :=
  { sampleGenerator 1000 with
    currentSegment := some openedSegment
    videoDTSEst := some [500 * millisecond]
    startPCR := 100
    startPTS := 0 }

/-- The scenario of the spec: IDR-bearing units at 0 s, 2.1 s, 4.0 s and 6.3 s,
each arriving when the clock reads its PTS. -/
def scenarioCalls : List Call :=
  [Call.h264 0 0 idrUnit, Call.h264 (2100 * millisecond) (2100 * millisecond) idrUnit,
    Call.h264 (4000 * millisecond) (4000 * millisecond) idrUnit,
    Call.h264 (6300 * millisecond) (6300 * millisecond) idrUnit]

/-- An access unit whose second NALU is empty: the scan stops at the IDR in
front of it, the sample encoder rejects it. -/
def badUnit : List (List Nat) := [[0x65, 0x88, 0x84], []]

/-- An audio track whose clock rate has no ADTS index. -/
def badRateTrack : TrackAAC := { type := 2, clockRate := 12345, channelCount := 2 }

/-- Audio and video units in turn: an audio unit and a video unit without IDR
before the first IDR, then two IDR units 2.1 s apart, each followed by audio. -/
def avCalls : List Call :=
  [Call.aac 0 0 [[1, 2]], Call.h264 1 0 nonIDRUnit,
    Call.h264 2 (100 * millisecond) idrUnit, Call.aac 3 (120 * millisecond) [[1, 2]],
    Call.h264 4 (2200 * millisecond) idrUnit, Call.aac 5 (2220 * millisecond) [[1], [2]]]

/-- A segment of an audio-only stream that started at rebased PTS 0.5 s and
holds `count` access units. -/
def audioSegment (count : Int) : muxerTSSegment :=
  { hlsSegmentMaxSize := 100000
    videoTrack := none
    startPTS := some (500 * millisecond)
    endPTS := 2400 * millisecond
    bufLen := 9000
    audioAUCount := count }

/-- An audio-only generator, segments of 2 s, that holds `audioSegment count`. -/
def audioOnlyGenerator (count : Int) : muxerTSGenerator :=
  { newMuxerTSGenerator 3 (2 * second) 100000 none (some sampleAudioTrack) with
    currentSegment := some (audioSegment count)
    startPCR := 100
    startPTS := 0 }

/-- The calls `writeH264` for `count` IDR-bearing units `units k`,
`k = first, first + 1, ...`, the unit `k` with PTS `t0 + k * D` arriving when the
clock reads `nows k`. -/
def cadenceCalls (nows : Nat → Int) (units : Nat → List (List Nat)) (t0 D : Int)
    (first count : Nat) : List Call :=
  (List.range' first count).map fun k => Call.h264 (nows k) (durAdd t0 (k * D)) (units k)

/-- The presentation timestamp argument of a call. -/
def Call.pts : Call → Int
  | Call.h264 _ pts _ => pts
  | Call.aac _ pts _ => pts

/-- The presentation timestamp passed to a segment write. -/
def writePTS : Event → Option Int
  | Event.segmentWriteH264 _ _ pts _ _ => some pts
  | Event.segmentWriteAAC _ pts _ _ => some pts
  | _ => none

/-- The presentation timestamps passed to the segment writes of a list of
events, in order. -/
def writtenPTS (es : List Event) : List Int := es.filterMap writePTS

/-- Putting a PTS in front of the first list of a list of lists. -/
def addToGroup (p : Int) : List (List Int) → List (List Int)
  | g :: gs => (p :: g) :: gs
  | [] => [[p]]

/-- The presentation timestamps passed to the segment writes, one list for each
segment: the writes before the first creation of a segment, then the writes
that follow each creation. -/
def segmentPTS : List Event → List (List Int)
  | [] => [[]]
  | Event.newSegment :: es => [] :: segmentPTS es
  | Event.segmentWriteH264 _ _ pts _ _ :: es => addToGroup pts (segmentPTS es)
  | Event.segmentWriteAAC _ pts _ _ :: es => addToGroup pts (segmentPTS es)
  | Event.newDTSEstimator :: es => segmentPTS es
  | Event.pushSegment _ :: es => segmentPTS es
  | Event.feedDTS _ :: es => segmentPTS es
  | Event.encodeAnnexB _ :: es => segmentPTS es
  | Event.encodeADTS _ :: es => segmentPTS es


/-! ## The shape of a call -/

/-- The three ways `finishH264` ends when the estimator and the segment exist:
encode error, write error, success. -/
theorem finishH264_cases (env : Env) (pts : Int) (idr : Bool) (nalus : List (List Nat))
    (pre : List Event) (m : muxerTSGenerator) (fed : List Int) (seg : muxerTSSegment)
    (hest : m.videoDTSEst = some fed) (hseg : m.currentSegment = some seg) :
    (∃ e, env.encodeAnnexB ([NALUTypeAccessUnitDelimiter, 240] :: nalus) = Except.error e ∧
      finishH264 env pts idr nalus pre m = Outcome.returned
        { err := some e
          m := { m with videoDTSEst := some (fed ++ [durSub pts m.startPTS])
                        currentSegment := none }
          events := pre ++ [Event.feedDTS (durSub pts m.startPTS),
              Event.encodeAnnexB ([NALUTypeAccessUnitDelimiter, 240] :: nalus)]
            ++ (if seg.bufLen > 0 then [Event.pushSegment seg] else []) }) ∨
    (∃ enc seg1 e,
      env.encodeAnnexB ([NALUTypeAccessUnitDelimiter, 240] :: nalus) = Except.ok enc ∧
      env.segmentWriteH264 seg m.startPCR
        (durAdd (env.dtsFeed (fed ++ [durSub pts m.startPTS])) pcrOffset) pts idr enc
        = (seg1, some e) ∧
      finishH264 env pts idr nalus pre m = Outcome.returned
        { err := some e
          m := { m with videoDTSEst := some (fed ++ [durSub pts m.startPTS])
                        currentSegment := none }
          events := pre ++ [Event.feedDTS (durSub pts m.startPTS),
              Event.encodeAnnexB ([NALUTypeAccessUnitDelimiter, 240] :: nalus),
              Event.segmentWriteH264 m.startPCR
                (durAdd (env.dtsFeed (fed ++ [durSub pts m.startPTS])) pcrOffset) pts idr enc]
            ++ (if seg1.bufLen > 0 then [Event.pushSegment seg1] else []) }) ∨
    (∃ enc seg1,
      env.encodeAnnexB ([NALUTypeAccessUnitDelimiter, 240] :: nalus) = Except.ok enc ∧
      env.segmentWriteH264 seg m.startPCR
        (durAdd (env.dtsFeed (fed ++ [durSub pts m.startPTS])) pcrOffset) pts idr enc
        = (seg1, none) ∧
      finishH264 env pts idr nalus pre m = Outcome.returned
        { err := none
          m := { m with videoDTSEst := some (fed ++ [durSub pts m.startPTS])
                        currentSegment := some seg1 }
          events := pre ++ [Event.feedDTS (durSub pts m.startPTS),
              Event.encodeAnnexB ([NALUTypeAccessUnitDelimiter, 240] :: nalus),
              Event.segmentWriteH264 m.startPCR
                (durAdd (env.dtsFeed (fed ++ [durSub pts m.startPTS])) pcrOffset) pts idr enc] }) := by
  simp only [finishH264, hest, hseg]
  cases henc : env.encodeAnnexB ([NALUTypeAccessUnitDelimiter, 240] :: nalus) with
  | error e => exact Or.inl ⟨e, rfl, rfl⟩
  | ok enc =>
    refine Or.inr ?_
    dsimp only
    generalize hw : env.segmentWriteH264 seg m.startPCR
        (durAdd (env.dtsFeed (fed ++ [durSub pts m.startPTS])) pcrOffset) pts idr enc = p
    obtain ⟨seg1, _ | e⟩ := p
    · exact Or.inr ⟨enc, seg1, rfl, hw, rfl⟩
    · exact Or.inl ⟨enc, seg1, e, rfl, hw, rfl⟩

/-- The rotation test of `writeH264` spelled out. -/
theorem durationReached_iff (seg : muxerTSSegment) (pts d : Int) :
    durationReached seg pts d = true ↔ ∃ s, seg.startPTS = some s ∧ d ≤ durSub pts s := by
  unfold durationReached
  cases seg.startPTS with
  | none => simp
  | some s => simp

/-- A call of `writeH264` on an open segment when the rotation test holds. -/
theorem writeH264_open_rotate (env : Env) (now pts : Int) (nalus : List (List Nat))
    (m : muxerTSGenerator) (seg : muxerTSSegment) (idr : Bool)
    (hseg : m.currentSegment = some seg) (hscan : idrPresent nalus = some idr)
    (hrot : (idr && durationReached seg (rebase pts m.startPTS) m.hlsSegmentDuration) = true) :
    writeH264 env now pts nalus m =
      finishH264 env (rebase pts m.startPTS) idr nalus
        [Event.pushSegment { seg with endPTS := rebase pts m.startPTS }, Event.newSegment]
        { m with
          currentSegment := some (newMuxerTSSegment m.hlsSegmentMaxSize m.videoTrack m.writer) } := by
  simp only [writeH264, hscan, lifecycleH264, hseg, hrot, if_true]

/-- A call of `writeH264` on an open segment when the rotation test fails. -/
theorem writeH264_open_continue (env : Env) (now pts : Int) (nalus : List (List Nat))
    (m : muxerTSGenerator) (seg : muxerTSSegment) (idr : Bool)
    (hseg : m.currentSegment = some seg) (hscan : idrPresent nalus = some idr)
    (hrot : (idr && durationReached seg (rebase pts m.startPTS) m.hlsSegmentDuration) = false) :
    writeH264 env now pts nalus m =
      finishH264 env (rebase pts m.startPTS) idr nalus [] m := by
  simp [writeH264, hscan, lifecycleH264, hseg, hrot]

/-- A call of `writeH264` without open segment on a unit with an IDR. -/
theorem writeH264_idle_open (env : Env) (now pts : Int) (nalus : List (List Nat))
    (m : muxerTSGenerator)
    (hseg : m.currentSegment = none) (hscan : idrPresent nalus = some true) :
    writeH264 env now pts nalus m =
      finishH264 env pcrOffset true nalus [Event.newSegment, Event.newDTSEstimator]
        { m with
          currentSegment := some (newMuxerTSSegment m.hlsSegmentMaxSize m.videoTrack m.writer)
          startPCR := now
          startPTS := pts
          videoDTSEst := some [] } := by
  simp [writeH264, hscan, lifecycleH264, hseg]

/-- A call of `writeH264` without open segment on a unit without IDR. -/
theorem writeH264_idle_skip (env : Env) (now pts : Int) (nalus : List (List Nat))
    (m : muxerTSGenerator)
    (hseg : m.currentSegment = none) (hscan : idrPresent nalus = some false) :
    writeH264 env now pts nalus m = Outcome.returned { err := none, m := m, events := [] } := by
  simp [writeH264, hscan, lifecycleH264, hseg]



/-- A call of `writeH264` returns when the scan of the NALUs completes and an
open segment comes with an estimator; the generator it leaves is again so. -/
theorem writeH264_returns (env : Env) (now pts : Int) (nalus : List (List Nat))
    (m : muxerTSGenerator) (idr : Bool) (hscan : idrPresent nalus = some idr)
    (hinv : m.currentSegment ≠ none → m.videoDTSEst ≠ none) :
    ∃ ret, writeH264 env now pts nalus m = Outcome.returned ret ∧
      (ret.m.currentSegment ≠ none → ret.m.videoDTSEst ≠ none) := by
  cases hseg : m.currentSegment with
  | none =>
    cases idr with
    | false =>
      rw [writeH264_idle_skip env now pts nalus m hseg hscan]
      exact ⟨_, rfl, by simp [hseg]⟩
    | true =>
      rw [writeH264_idle_open env now pts nalus m hseg hscan]
      rcases finishH264_cases env pcrOffset true nalus [Event.newSegment, Event.newDTSEstimator]
        { m with
          currentSegment := some (newMuxerTSSegment m.hlsSegmentMaxSize m.videoTrack m.writer)
          startPCR := now
          startPTS := pts
          videoDTSEst := some [] } [] _ rfl rfl
        with ⟨e, _, h⟩ | ⟨enc, seg1, e, _, _, h⟩ | ⟨enc, seg1, _, _, h⟩ <;>
      exact ⟨_, h, by simp⟩
  | some seg =>
    obtain ⟨fed, hest⟩ : ∃ fed, m.videoDTSEst = some fed :=
      Option.ne_none_iff_exists'.mp (hinv (by simp [hseg]))
    cases hrot : (idr && durationReached seg (rebase pts m.startPTS) m.hlsSegmentDuration) with
    | true =>
      rw [writeH264_open_rotate env now pts nalus m seg idr hseg hscan hrot]
      rcases finishH264_cases env (rebase pts m.startPTS) idr nalus
        [Event.pushSegment { seg with endPTS := rebase pts m.startPTS }, Event.newSegment]
        { m with
          currentSegment := some (newMuxerTSSegment m.hlsSegmentMaxSize m.videoTrack m.writer) }
        fed _ hest rfl
        with ⟨e, _, h⟩ | ⟨enc, seg1, e, _, _, h⟩ | ⟨enc, seg1, _, _, h⟩ <;>
      exact ⟨_, h, by simp⟩
    | false =>
      rw [writeH264_open_continue env now pts nalus m seg idr hseg hscan hrot]
      rcases finishH264_cases env (rebase pts m.startPTS) idr nalus [] m fed seg hest hseg
        with ⟨e, _, h⟩ | ⟨enc, seg1, e, _, _, h⟩ | ⟨enc, seg1, _, _, h⟩ <;>
      exact ⟨_, h, by simp⟩

/-- A successful call of `writeH264` without open segment on a unit with IDR. -/
theorem writeH264_idle_ok (env : Env) (now pts : Int) (nalus : List (List Nat))
    (m : muxerTSGenerator) (ret : Ret)
    (hseg : m.currentSegment = none) (hscan : idrPresent nalus = some true)
    (hret : writeH264 env now pts nalus m = Outcome.returned ret) (herr : ret.err = none)
    (hsr : StartRule env) :
    ret.m.startPTS = pts ∧ ret.m.startPCR = now ∧
      ret.m.hlsSegmentDuration = m.hlsSegmentDuration ∧
      ret.m.videoDTSEst = some [durSub pcrOffset pts] ∧
      sealsAndReplaces ret.events = false ∧ pushed ret.events = [] ∧
      ∃ seg1, ret.m.currentSegment = some seg1 ∧ seg1.startPTS = some pcrOffset := by
  rw [writeH264_idle_open env now pts nalus m hseg hscan] at hret
  rcases finishH264_cases env pcrOffset true nalus [Event.newSegment, Event.newDTSEstimator]
    { m with
      currentSegment := some (newMuxerTSSegment m.hlsSegmentMaxSize m.videoTrack m.writer)
      startPCR := now
      startPTS := pts
      videoDTSEst := some [] } [] _ rfl rfl
    with ⟨e, _, h⟩ | ⟨enc, seg1, e, _, _, h⟩ | ⟨enc, seg1, _, hw, h⟩
  · rw [h] at hret; cases hret; simp at herr
  · rw [h] at hret; cases hret; simp at herr
  · rw [h] at hret; cases hret
    have hstart := hsr _ _ _ _ _ _ _ hw
    simp only [newMuxerTSSegment, Option.getD_none] at hstart
    exact ⟨rfl, rfl, rfl, rfl, by simp [sealsAndReplaces], by simp [pushed], seg1, rfl, hstart⟩

/-- A successful call of `writeH264` on an open segment. -/
theorem writeH264_open_ok (env : Env) (now pts : Int) (nalus : List (List Nat))
    (m : muxerTSGenerator) (seg : muxerTSSegment) (idr : Bool) (fed : List Int) (ret : Ret)
    (hseg : m.currentSegment = some seg) (hest : m.videoDTSEst = some fed)
    (hscan : idrPresent nalus = some idr)
    (hret : writeH264 env now pts nalus m = Outcome.returned ret) (herr : ret.err = none)
    (hsr : StartRule env) :
    ret.m.startPTS = m.startPTS ∧ ret.m.startPCR = m.startPCR ∧
      ret.m.hlsSegmentDuration = m.hlsSegmentDuration ∧
      ret.m.videoDTSEst = some (fed ++ [durSub (rebase pts m.startPTS) m.startPTS]) ∧
      ((idr && durationReached seg (rebase pts m.startPTS) m.hlsSegmentDuration) = true →
        sealsAndReplaces ret.events = true ∧
        pushed ret.events = [{ seg with endPTS := rebase pts m.startPTS }] ∧
        ∃ seg1, ret.m.currentSegment = some seg1 ∧
          seg1.startPTS = some (rebase pts m.startPTS)) ∧
      ((idr && durationReached seg (rebase pts m.startPTS) m.hlsSegmentDuration) = false →
        sealsAndReplaces ret.events = false ∧ pushed ret.events = [] ∧
        ∃ seg1, ret.m.currentSegment = some seg1 ∧
          seg1.startPTS = some (seg.startPTS.getD (rebase pts m.startPTS))) := by
  cases hrot : (idr && durationReached seg (rebase pts m.startPTS) m.hlsSegmentDuration) with
  | true =>
    rw [writeH264_open_rotate env now pts nalus m seg idr hseg hscan hrot] at hret
    rcases finishH264_cases env (rebase pts m.startPTS) idr nalus
      [Event.pushSegment { seg with endPTS := rebase pts m.startPTS }, Event.newSegment]
      { m with
        currentSegment := some (newMuxerTSSegment m.hlsSegmentMaxSize m.videoTrack m.writer) }
      fed _ hest rfl
      with ⟨e, _, h⟩ | ⟨enc, seg1, e, _, _, h⟩ | ⟨enc, seg1, _, hw, h⟩
    · rw [h] at hret; cases hret; simp at herr
    · rw [h] at hret; cases hret; simp at herr
    · rw [h] at hret; cases hret
      have hstart := hsr _ _ _ _ _ _ _ hw
      simp only [newMuxerTSSegment, Option.getD_none] at hstart
      exact ⟨rfl, rfl, rfl, rfl,
        fun _ => ⟨by simp [sealsAndReplaces], by simp [pushed], seg1, rfl, hstart⟩,
        fun h => by simp at h⟩
  | false =>
    rw [writeH264_open_continue env now pts nalus m seg idr hseg hscan hrot] at hret
    rcases finishH264_cases env (rebase pts m.startPTS) idr nalus [] m fed seg hest hseg
      with ⟨e, _, h⟩ | ⟨enc, seg1, e, _, _, h⟩ | ⟨enc, seg1, _, hw, h⟩
    · rw [h] at hret; cases hret; simp at herr
    · rw [h] at hret; cases hret; simp at herr
    · rw [h] at hret; cases hret
      have hstart := hsr _ _ _ _ _ _ _ hw
      exact ⟨rfl, rfl, rfl, rfl, fun h => by simp at h,
        fun _ => ⟨by simp [sealsAndReplaces], by simp [pushed], seg1, rfl, hstart⟩⟩



/-- The pushes of two lists of events, one after the other. -/
theorem pushed_append (a b : List Event) : pushed (a ++ b) = pushed a ++ pushed b := by
  induction a with
  | nil => rfl
  | cons e es ih => cases e <;> simp [pushed, ih]


theorem sampleEnv_startRule : StartRule sampleEnv := by
  intro seg startPCR dts pts idr enc seg1 h
  simp only [sampleEnv, sampleSegmentWrite] at h
  split at h
  · simp at h
  · simp only [Prod.mk.injEq, and_true] at h
    rw [← h]

theorem writeH264_error_idle (env : Env) (now pts : Int) (nalus : List (List Nat))
    (m : muxerTSGenerator) (ret : Ret) (e : GoError)
    (hret : writeH264 env now pts nalus m = Outcome.returned ret) (herr : ret.err = some e) :
    ret.m.currentSegment = none := by
  unfold writeH264 at hret
  split at hret
  · cases hret
  · split at hret
    · cases hret; simp at herr
    · unfold finishH264 at hret
      dsimp only at hret
      split at hret
      · cases hret
      · split at hret
        · cases hret
        · split at hret
          · cases hret; rfl
          · split at hret
            · cases hret; rfl
            · cases hret; simp at herr

/-- The three ways `finishAAC` ends when the packets can be built and the
segment exists: encode error, write error, success. -/
theorem finishAAC_cases (env : Env) (pts : Int) (aus : List (List Nat))
    (pre : List Event) (m : muxerTSGenerator) (pkts : List ADTSPacket) (seg : muxerTSSegment)
    (hpk : makePackets m.audioTrack aus = some pkts) (hseg : m.currentSegment = some seg) :
    (∃ e, env.encodeADTS pkts = Except.error e ∧
      finishAAC env pts aus pre m = Outcome.returned
        { err := some e, m := m, events := pre ++ [Event.encodeADTS pkts] }) ∨
    (∃ enc seg1 e, env.encodeADTS pkts = Except.ok enc ∧
      env.segmentWriteAAC seg m.startPCR pts enc aus.length = (seg1, some e) ∧
      finishAAC env pts aus pre m = Outcome.returned
        { err := some e
          m := { m with currentSegment := none }
          events := pre ++ [Event.encodeADTS pkts,
              Event.segmentWriteAAC m.startPCR pts enc aus.length]
            ++ (if seg1.bufLen > 0 then [Event.pushSegment seg1] else []) }) ∨
    (∃ enc seg1, env.encodeADTS pkts = Except.ok enc ∧
      env.segmentWriteAAC seg m.startPCR pts enc aus.length = (seg1, none) ∧
      finishAAC env pts aus pre m = Outcome.returned
        { err := none
          m := { m with currentSegment := some seg1 }
          events := pre ++ [Event.encodeADTS pkts,
              Event.segmentWriteAAC m.startPCR pts enc aus.length] }) := by
  simp only [finishAAC, hpk, hseg]
  cases henc : env.encodeADTS pkts with
  | error e => exact Or.inl ⟨e, rfl, rfl⟩
  | ok enc =>
    refine Or.inr ?_
    dsimp only
    generalize hw : env.segmentWriteAAC seg m.startPCR pts enc aus.length = p
    obtain ⟨seg1, _ | e⟩ := p
    · exact Or.inr ⟨enc, seg1, rfl, hw, rfl⟩
    · exact Or.inl ⟨enc, seg1, e, rfl, hw, rfl⟩

/-- Reading two lists of events, one after the other. -/
theorem scanStarts_append (a b : List Event) (fresh : Bool) :
    scanStarts fresh (a ++ b) = (scanStarts fresh a).bind (fun f => scanStarts f b) := by
  induction a generalizing fresh with
  | nil => rfl
  | cons e es ih =>
    cases e with
    | segmentWriteH264 startPCR dts pts idr enc =>
      simp only [List.cons_append, scanStarts]
      split
      · rfl
      · exact ih false
    | segmentWriteAAC startPCR pts enc ausLen =>
      simp only [List.cons_append, scanStarts]
      split
      · rfl
      · exact ih false
    | newSegment => exact ih true
    | newDTSEstimator => exact ih fresh
    | pushSegment seg => exact ih fresh
    | feedDTS v => exact ih fresh
    | encodeAnnexB nalus => exact ih fresh
    | encodeADTS pkts => exact ih fresh

/-- One call on a generator with a video track: every segment it creates is
created by `writeH264` on a unit with IDR and is written first by that unit. -/
theorem step_scanStarts (env : Env) (c : Call) (m : muxerTSGenerator) (r : Ret) (fresh : Bool)
    (hv : m.videoTrack ≠ none) (hf : fresh = true → m.currentSegment = none)
    (hstep : step env c m = Outcome.returned r) :
    ∃ fresh1, scanStarts fresh r.events = some fresh1 ∧
      (fresh1 = true → r.m.currentSegment = none) ∧ r.m.videoTrack = m.videoTrack ∧
      (Event.newSegment ∈ r.events →
        ∃ now pts nalus, c = Call.h264 now pts nalus ∧ idrPresent nalus = some true) := by
  cases c with
  | h264 now pts nalus =>
    simp only [step] at hstep
    cases hscan : idrPresent nalus with
    | none => simp [writeH264, hscan] at hstep
    | some idr =>
      cases hseg : m.currentSegment with
      | none =>
        cases idr with
        | false =>
          rw [writeH264_idle_skip env now pts nalus m hseg hscan] at hstep
          cases hstep
          exact ⟨fresh, rfl, fun h => hf h, rfl, by simp⟩
        | true =>
          rw [writeH264_idle_open env now pts nalus m hseg hscan] at hstep
          rcases finishH264_cases env pcrOffset true nalus
            [Event.newSegment, Event.newDTSEstimator]
            { m with
              currentSegment :=
                some (newMuxerTSSegment m.hlsSegmentMaxSize m.videoTrack m.writer)
              startPCR := now
              startPTS := pts
              videoDTSEst := some [] } [] _ rfl rfl
            with ⟨e, _, h⟩ | ⟨enc, seg1, e, _, _, h⟩ | ⟨enc, seg1, _, _, h⟩
          · rw [h] at hstep; cases hstep
            refine ⟨true, ?_, fun _ => rfl, rfl, fun _ => ⟨now, pts, nalus, rfl, hscan⟩⟩
            simp [scanStarts, newMuxerTSSegment]
          · rw [h] at hstep; cases hstep
            refine ⟨false, ?_, by simp, rfl, fun _ => ⟨now, pts, nalus, rfl, hscan⟩⟩
            by_cases hb : seg1.bufLen > 0 <;> simp [scanStarts, hb]
          · rw [h] at hstep; cases hstep
            exact ⟨false, by simp [scanStarts], by simp, rfl,
              fun _ => ⟨now, pts, nalus, rfl, hscan⟩⟩
      | some seg =>
        have hfr : fresh = false := by
          cases fresh with
          | false => rfl
          | true => simp [hseg] at hf
        subst hfr
        cases hest : m.videoDTSEst with
        | none =>
          exfalso
          cases hrot :
              (idr && durationReached seg (rebase pts m.startPTS) m.hlsSegmentDuration) with
          | true =>
            rw [writeH264_open_rotate env now pts nalus m seg idr hseg hscan hrot] at hstep
            simp [finishH264, hest] at hstep
          | false =>
            rw [writeH264_open_continue env now pts nalus m seg idr hseg hscan hrot] at hstep
            simp [finishH264, hest] at hstep
        | some fed =>
          cases hrot :
              (idr && durationReached seg (rebase pts m.startPTS) m.hlsSegmentDuration) with
          | true =>
            have hidr : idr = true := by
              cases idr with
              | false => simp at hrot
              | true => rfl
            subst hidr
            rw [writeH264_open_rotate env now pts nalus m seg true hseg hscan hrot] at hstep
            rcases finishH264_cases env (rebase pts m.startPTS) true nalus
              [Event.pushSegment { seg with endPTS := rebase pts m.startPTS }, Event.newSegment]
              { m with
                currentSegment :=
                  some (newMuxerTSSegment m.hlsSegmentMaxSize m.videoTrack m.writer) }
              fed _ hest rfl
              with ⟨e, _, h⟩ | ⟨enc, seg1, e, _, _, h⟩ | ⟨enc, seg1, _, _, h⟩
            · rw [h] at hstep; cases hstep
              refine ⟨true, ?_, fun _ => rfl, rfl, fun _ => ⟨now, pts, nalus, rfl, hscan⟩⟩
              simp [scanStarts, newMuxerTSSegment]
            · rw [h] at hstep; cases hstep
              refine ⟨false, ?_, by simp, rfl, fun _ => ⟨now, pts, nalus, rfl, hscan⟩⟩
              by_cases hb : seg1.bufLen > 0 <;> simp [scanStarts, hb]
            · rw [h] at hstep; cases hstep
              exact ⟨false, by simp [scanStarts], by simp, rfl,
                fun _ => ⟨now, pts, nalus, rfl, hscan⟩⟩
          | false =>
            rw [writeH264_open_continue env now pts nalus m seg idr hseg hscan hrot] at hstep
            rcases finishH264_cases env (rebase pts m.startPTS) idr nalus [] m fed seg hest hseg
              with ⟨e, _, h⟩ | ⟨enc, seg1, e, _, _, h⟩ | ⟨enc, seg1, _, _, h⟩
            · rw [h] at hstep; cases hstep
              refine ⟨false, ?_, by simp, rfl, ?_⟩
              · by_cases hb : seg.bufLen > 0 <;> simp [scanStarts, hb]
              · by_cases hb : seg.bufLen > 0 <;> simp [hb]
            · rw [h] at hstep; cases hstep
              refine ⟨false, ?_, by simp, rfl, ?_⟩
              · by_cases hb : seg1.bufLen > 0 <;> simp [scanStarts, hb]
              · by_cases hb : seg1.bufLen > 0 <;> simp [hb]
            · rw [h] at hstep; cases hstep
              exact ⟨false, by simp [scanStarts], by simp, rfl, by simp⟩
  | aac now pts aus =>
    simp only [step, writeAAC, lifecycleAAC, if_neg hv] at hstep
    cases hseg : m.currentSegment with
    | none =>
      simp only [hseg] at hstep
      cases hstep
      exact ⟨fresh, rfl, fun h => hf h, rfl, by simp⟩
    | some seg =>
      have hfr : fresh = false := by
        cases fresh with
        | false => rfl
        | true => simp [hseg] at hf
      subst hfr
      simp only [hseg] at hstep
      cases hpk : makePackets m.audioTrack aus with
      | none => simp [finishAAC, hpk] at hstep
      | some pkts =>
        rcases finishAAC_cases env (rebase pts m.startPTS) aus [] m pkts seg hpk hseg
          with ⟨e, _, h⟩ | ⟨enc, seg1, e, _, _, h⟩ | ⟨enc, seg1, _, _, h⟩
        · rw [h] at hstep; cases hstep
          exact ⟨false, by simp [scanStarts], by simp, rfl, by simp⟩
        · rw [h] at hstep; cases hstep
          refine ⟨false, ?_, by simp, rfl, ?_⟩
          · by_cases hb : seg1.bufLen > 0 <;> simp [scanStarts, hb]
          · by_cases hb : seg1.bufLen > 0 <;> simp [hb]
        · rw [h] at hstep; cases hstep
          exact ⟨false, by simp [scanStarts], by simp, rfl, by simp⟩

/-- A trace on a generator with a video track, read with the flag `fresh`. -/
theorem run_scanStarts (env : Env) (calls : List Call) :
    ∀ (m : muxerTSGenerator) (rs : List Ret) (fresh : Bool),
      m.videoTrack ≠ none → (fresh = true → m.currentSegment = none) →
      run env calls m = some rs →
      (scanStarts fresh (eventsOf rs)).isSome = true ∧
      ∀ c r, (c, r) ∈ calls.zip rs → Event.newSegment ∈ r.events →
        ∃ now pts nalus, c = Call.h264 now pts nalus ∧ idrPresent nalus = some true := by
  induction calls with
  | nil =>
    intro m rs fresh _ _ hrun
    simp only [run, Option.some.injEq] at hrun
    subst hrun
    simp [eventsOf, scanStarts]
  | cons c cs ih =>
    intro m rs fresh hv hf hrun
    simp only [run] at hrun
    cases hstep : step env c m with
    | panicked p => simp [hstep] at hrun
    | returned r =>
      simp only [hstep] at hrun
      cases hrest : run env cs r.m with
      | none => simp [hrest] at hrun
      | some rs1 =>
        simp only [hrest, Option.some.injEq] at hrun
        subst hrun
        obtain ⟨fresh1, hs, hf1, hv1, hnew⟩ := step_scanStarts env c m r fresh hv hf hstep
        obtain ⟨ih1, ih2⟩ := ih r.m rs1 fresh1 (by rw [hv1]; exact hv) hf1 hrest
        refine ⟨?_, ?_⟩
        · simp only [eventsOf, scanStarts_append, hs, Option.some_bind]
          exact ih1
        · intro c1 r1 hmem hn
          simp only [List.zip_cons_cons, List.mem_cons, Prod.mk.injEq] at hmem
          rcases hmem with ⟨rfl, rfl⟩ | hmem
          · exact hnew hn
          · exact ih2 c1 r1 hmem hn

/-! ## Rotation of the video segment -/

/-- C1. Video rotation rule. For a call of `writeH264` on an open segment `seg`
(the scan of the NALUs completes, the estimator exists), with
`rebased = pts - startPTS + pcrOffset`: the call returns, the timeline origin
(`startPTS`, `startPCR`) is unchanged, and the segment is sealed and replaced
if and only if the unit has an IDR, `seg.startPTS` is set and
`rebased - seg.startPTS >= hlsSegmentDuration`. When it rotates, the first two
calls are the push of `seg` with `endPTS = rebased` and the creation of a new
segment, no other segment is created, nothing else is pushed unless the call
fails, and on success the pushes are exactly the sealed segment and the new
segment received this unit with PTS `rebased`. When it does not rotate, no
segment is created, nothing is pushed unless the call fails, and on success the
unit was written to `seg` itself. -/
theorem writeH264_rotation_rule (env : Env) (now pts : Int) (nalus : List (List Nat))
    (m : muxerTSGenerator) (seg : muxerTSSegment) (idr : Bool) (fed : List Int)
    (hseg : m.currentSegment = some seg)
    (hscan : idrPresent nalus = some idr)
    (hest : m.videoDTSEst = some fed) :
    ∃ ret, writeH264 env now pts nalus m = Outcome.returned ret ∧
      ret.m.startPTS = m.startPTS ∧ ret.m.startPCR = m.startPCR ∧
      (sealsAndReplaces ret.events = true ↔
        (idr = true ∧ ∃ s, seg.startPTS = some s ∧
          m.hlsSegmentDuration ≤ durSub (rebase pts m.startPTS) s)) ∧
      (sealsAndReplaces ret.events = true →
        ∃ rest, ret.events =
            Event.pushSegment { seg with endPTS := rebase pts m.startPTS }
              :: Event.newSegment :: rest ∧
          Event.newSegment ∉ rest ∧
          (∀ s, Event.pushSegment s ∈ rest → ret.err ≠ none) ∧
          (ret.err = none →
            pushed ret.events = [{ seg with endPTS := rebase pts m.startPTS }] ∧
            ∃ dts enc,
              Event.segmentWriteH264 m.startPCR dts (rebase pts m.startPTS) idr enc ∈ rest ∧
              ret.m.currentSegment = some (env.segmentWriteH264
                (newMuxerTSSegment m.hlsSegmentMaxSize m.videoTrack m.writer)
                m.startPCR dts (rebase pts m.startPTS) idr enc).1)) ∧
      (sealsAndReplaces ret.events = false →
        Event.newSegment ∉ ret.events ∧
        (∀ s, Event.pushSegment s ∈ ret.events → ret.err ≠ none) ∧
        (ret.err = none →
          pushed ret.events = [] ∧
          ∃ dts enc,
            Event.segmentWriteH264 m.startPCR dts (rebase pts m.startPTS) idr enc ∈ ret.events ∧
            ret.m.currentSegment = some (env.segmentWriteH264 seg
              m.startPCR dts (rebase pts m.startPTS) idr enc).1)) := by
  have hiff : (idr && durationReached seg (rebase pts m.startPTS) m.hlsSegmentDuration) = true ↔
      (idr = true ∧ ∃ s, seg.startPTS = some s ∧
          m.hlsSegmentDuration ≤ durSub (rebase pts m.startPTS) s) := by
    rw [Bool.and_eq_true, durationReached_iff]
  by_cases hrot : (idr && durationReached seg (rebase pts m.startPTS) m.hlsSegmentDuration) = true
  · rw [writeH264_open_rotate env now pts nalus m seg idr hseg hscan hrot]
    rcases finishH264_cases env (rebase pts m.startPTS) idr nalus
        [Event.pushSegment { seg with endPTS := rebase pts m.startPTS }, Event.newSegment]
        { m with
          currentSegment := some (newMuxerTSSegment m.hlsSegmentMaxSize m.videoTrack m.writer) }
        fed _ hest rfl with ⟨e, _, h⟩ | ⟨enc, seg1, e, _, hw, h⟩ | ⟨enc, seg1, _, hw, h⟩
    · refine ⟨_, h, rfl, rfl, ?_, ?_, ?_⟩
      · simpa [sealsAndReplaces] using hiff.mp hrot
      · intro _
        exact ⟨_, rfl, by simp, by simp, by simp⟩
      · simp [sealsAndReplaces]
    · refine ⟨_, h, rfl, rfl, ?_, ?_, ?_⟩
      · simpa [sealsAndReplaces] using hiff.mp hrot
      · intro _
        exact ⟨_, rfl, by simp, by simp, by simp⟩
      · simp [sealsAndReplaces]
    · refine ⟨_, h, rfl, rfl, ?_, ?_, ?_⟩
      · simpa [sealsAndReplaces] using hiff.mp hrot
      · intro _
        dsimp only at hw
        refine ⟨_, rfl, by simp, by simp, fun _ => ⟨by simp [pushed],
          durAdd (env.dtsFeed (fed ++ [durSub (rebase pts m.startPTS) m.startPTS])) pcrOffset,
            enc, by simp, ?_⟩⟩
        simp only [hw]
      · simp [sealsAndReplaces]
  · have hrot2 :
        (idr && durationReached seg (rebase pts m.startPTS) m.hlsSegmentDuration) = false := by
      simpa using hrot
    rw [writeH264_open_continue env now pts nalus m seg idr hseg hscan hrot2]
    rcases finishH264_cases env (rebase pts m.startPTS) idr nalus [] m fed seg hest hseg
      with ⟨e, _, h⟩ | ⟨enc, seg1, e, _, hw, h⟩ | ⟨enc, seg1, _, hw, h⟩
    · refine ⟨_, h, rfl, rfl, ?_, ?_, ?_⟩
      · rw [← hiff]; simp [sealsAndReplaces, hrot]
      · simp [sealsAndReplaces]
      · intro _
        exact ⟨by simp, by simp, by simp⟩
    · refine ⟨_, h, rfl, rfl, ?_, ?_, ?_⟩
      · rw [← hiff]; simp [sealsAndReplaces, hrot]
      · simp [sealsAndReplaces]
      · intro _
        exact ⟨by simp, by simp, by simp⟩
    · refine ⟨_, h, rfl, rfl, ?_, ?_, ?_⟩
      · rw [← hiff]; simp [sealsAndReplaces, hrot]
      · simp [sealsAndReplaces]
      · intro _
        refine ⟨by simp, by simp, fun _ => ⟨by simp [pushed],
          durAdd (env.dtsFeed (fed ++ [durSub (rebase pts m.startPTS) m.startPTS])) pcrOffset,
            enc, by simp, ?_⟩⟩
        simp only [hw]

/-- Witness of C1: the unit at 2.1 s of the scenario, on the segment opened at
0 s, rotates. -/
theorem writeH264_rotation_rule_witness :
    ∃ ret, writeH264 sampleEnv 200 (2100 * millisecond) idrUnit openedGenerator
        = Outcome.returned ret ∧
      ret.m.startPTS = openedGenerator.startPTS ∧ sealsAndReplaces ret.events = true := by
  obtain ⟨ret, h, hp, _, hiff, _⟩ :=
    writeH264_rotation_rule sampleEnv 200 (2100 * millisecond) idrUnit openedGenerator
      openedSegment true [500 * millisecond] rfl rfl rfl
  exact ⟨ret, h, hp, hiff.mpr ⟨rfl, 500 * millisecond, rfl, by decide⟩⟩

/-! ## The scenario of the spec -/

/-- C2, as amended. With `hlsSegmentDuration = 2 s`, from a generator without
open segment, four IDR-bearing units of PTS 0 s, 2.1 s, 4.0 s and 6.3 s are
processed without panic; when the four calls succeed and the start PTS of a
segment is the PTS of its first write, the segment boundaries are at the units
of PTS 2.1 s and 6.3 s and not at 4.0 s (1.9 s after the start of the second
segment), and exactly two segments are pushed, spanning 0.5 s to 2.6 s and
2.6 s to 6.8 s. -/
theorem scenario_boundaries (env : Env) (m0 : muxerTSGenerator) (t1 t2 t3 t4 : Int)
    (n1 n2 n3 n4 : List (List Nat))
    (hidle : m0.currentSegment = none) (hdur : m0.hlsSegmentDuration = 2 * second)
    (h1 : idrPresent n1 = some true) (h2 : idrPresent n2 = some true)
    (h3 : idrPresent n3 = some true) (h4 : idrPresent n4 = some true) :
    ∃ r1 r2 r3 r4,
      run env [Call.h264 t1 0 n1, Call.h264 t2 (2100 * millisecond) n2,
        Call.h264 t3 (4000 * millisecond) n3, Call.h264 t4 (6300 * millisecond) n4] m0
        = some [r1, r2, r3, r4] ∧
      (StartRule env → r1.err = none → r2.err = none → r3.err = none → r4.err = none →
        sealsAndReplaces r1.events = false ∧ sealsAndReplaces r2.events = true ∧
        sealsAndReplaces r3.events = false ∧ sealsAndReplaces r4.events = true ∧
        ∃ s1 s2, pushed (eventsOf [r1, r2, r3, r4]) = [s1, s2] ∧
          s1.startPTS = some (500 * millisecond) ∧ s1.endPTS = 2600 * millisecond ∧
          s2.startPTS = some (2600 * millisecond) ∧ s2.endPTS = 6800 * millisecond) := by
  obtain ⟨r1, hr1, inv1⟩ := writeH264_returns env t1 0 n1 m0 true h1 (by simp [hidle])
  obtain ⟨r2, hr2, inv2⟩ := writeH264_returns env t2 (2100 * millisecond) n2 r1.m true h2 inv1
  obtain ⟨r3, hr3, inv3⟩ := writeH264_returns env t3 (4000 * millisecond) n3 r2.m true h3 inv2
  obtain ⟨r4, hr4, _⟩ := writeH264_returns env t4 (6300 * millisecond) n4 r3.m true h4 inv3
  refine ⟨r1, r2, r3, r4, by simp [run, step, hr1, hr2, hr3, hr4], ?_⟩
  intro hsr e1 e2 e3 e4
  obtain ⟨p1, -, d1, est1, b1, pu1, seg1, hs1, hst1⟩ :=
    writeH264_idle_ok env t1 0 n1 m0 r1 hidle h1 hr1 e1 hsr
  obtain ⟨p2, -, d2, est2, rot2, -⟩ :=
    writeH264_open_ok env t2 (2100 * millisecond) n2 r1.m seg1 true _ r2 hs1 est1 h2 hr2 e2 hsr
  rw [p1, d1, hdur] at rot2
  obtain ⟨b2, pu2, seg2, hs2, hst2⟩ := rot2 (by
    simp only [durationReached, hst1, Bool.true_and]; decide)
  obtain ⟨p3, -, d3, est3, -, cont3⟩ :=
    writeH264_open_ok env t3 (4000 * millisecond) n3 r2.m seg2 true _ r3 hs2 est2 h3 hr3 e3 hsr
  rw [p2, p1, d2, d1, hdur] at cont3
  obtain ⟨b3, pu3, seg3, hs3, hst3⟩ := cont3 (by
    simp only [durationReached, hst2, Bool.true_and]; decide)
  rw [hst2, Option.getD_some] at hst3
  obtain ⟨-, -, -, -, rot4, -⟩ :=
    writeH264_open_ok env t4 (6300 * millisecond) n4 r3.m seg3 true _ r4 hs3 est3 h4 hr4 e4 hsr
  rw [p3, p2, p1, d3, d2, d1, hdur] at rot4
  obtain ⟨b4, pu4, -⟩ := rot4 (by
    simp only [durationReached, hst3, Bool.true_and]; decide)
  refine ⟨b1, b2, b3, b4, { seg1 with endPTS := rebase (2100 * millisecond) 0 },
    { seg3 with endPTS := rebase (6300 * millisecond) 0 }, ?_, ?_⟩
  · simp only [eventsOf, pushed_append, pu1, pu2, pu3, pu4, pushed, List.append_nil,
      List.nil_append, List.singleton_append]
  · refine ⟨?_, ?_, ?_, ?_⟩
    · simp only [hst1]; decide
    · show rebase (2100 * millisecond) 0 = 2600 * millisecond
      decide
    · simp only [hst3]; decide
    · show rebase (6300 * millisecond) 0 = 6800 * millisecond
      decide


set_option maxRecDepth 20000 in
/-- Counterexample to C2 as stated: on the sample environment the four calls of
the scenario succeed, the unit of PTS 4.0 s seals nothing and pushes nothing,
the boundaries are at 2.1 s and 6.3 s and two segments are pushed, not four. -/
theorem scenario_no_boundary_at_4s :
    ∃ r1 r2 r3 r4, run sampleEnv scenarioCalls (sampleGenerator 1000) = some [r1, r2, r3, r4] ∧
      [r1.err, r2.err, r3.err, r4.err] = [none, none, none, none] ∧
      sealsAndReplaces r2.events = true ∧
      sealsAndReplaces r3.events = false ∧ pushed r3.events = [] ∧
      sealsAndReplaces r4.events = true ∧
      (pushed (eventsOf [r1, r2, r3, r4])).length = 2 := by
  exact ⟨_, _, _, _, rfl, rfl, rfl, rfl, rfl, rfl, rfl⟩

set_option maxRecDepth 20000 in
/-- Witness of C2 as amended, on the sample environment. -/
theorem scenario_boundaries_witness :
    ∃ r1 r2 r3 r4, run sampleEnv scenarioCalls (sampleGenerator 1000) = some [r1, r2, r3, r4] ∧
      sealsAndReplaces r3.events = false ∧ sealsAndReplaces r4.events = true := by
  obtain ⟨r1, r2, r3, r4, hrun, h⟩ :=
    scenario_boundaries sampleEnv (sampleGenerator 1000) 0 (2100 * millisecond)
      (4000 * millisecond) (6300 * millisecond) idrUnit idrUnit idrUnit idrUnit rfl rfl
      rfl rfl rfl rfl
  have herr : (run sampleEnv scenarioCalls (sampleGenerator 1000)).map
      (fun rs => rs.map Ret.err) = some [none, none, none, none] := rfl
  have hrun2 : run sampleEnv scenarioCalls (sampleGenerator 1000) = some [r1, r2, r3, r4] := hrun
  rw [hrun2] at herr
  simp only [Option.map_some', List.map_cons, List.map_nil, Option.some.injEq,
    List.cons.injEq, and_true] at herr
  obtain ⟨_, _, b3, b4, _⟩ := h sampleEnv_startRule herr.1 herr.2.1 herr.2.2.1 herr.2.2.2
  exact ⟨r1, r2, r3, r4, hrun, b3, b4⟩

/-! ## Failure and recovery -/

/-- C3, as amended. A failing call of `writeH264` leaves the generator without
open segment, and the next call with an IDR, made on that generator when the
clock reads `now2`, returns and re-establishes the timeline origin at its own
unit: `startPTS` is the PTS of that unit, `startPCR` is `now2`, a segment and
an estimator are created first, the rebased PTS of the unit is `pcrOffset`
(that is `pts2 - startPTS + pcrOffset` for the new origin), and on success the
new segment received the unit with that PTS. -/
theorem writeH264_recovery_new_origin (env : Env) (now pts : Int) (nalus : List (List Nat))
    (m : muxerTSGenerator) (ret : Ret) (e : GoError) (now2 pts2 : Int)
    (nalus2 : List (List Nat))
    (hret : writeH264 env now pts nalus m = Outcome.returned ret) (herr : ret.err = some e)
    (hscan2 : idrPresent nalus2 = some true) :
    ret.m.currentSegment = none ∧
    ∃ ret2, writeH264 env now2 pts2 nalus2 ret.m = Outcome.returned ret2 ∧
      ret2.m.startPTS = pts2 ∧ ret2.m.startPCR = now2 ∧
      rebase pts2 ret2.m.startPTS = pcrOffset ∧
      (∃ rest, ret2.events = Event.newSegment :: Event.newDTSEstimator :: rest) ∧
      (ret2.err = none → ∃ dts enc,
        Event.segmentWriteH264 now2 dts pcrOffset true enc ∈ ret2.events ∧
        ret2.m.currentSegment = some (env.segmentWriteH264
          (newMuxerTSSegment ret.m.hlsSegmentMaxSize ret.m.videoTrack ret.m.writer)
          now2 dts pcrOffset true enc).1) := by
  have hidle := writeH264_error_idle env now pts nalus m ret e hret herr
  refine ⟨hidle, ?_⟩
  have hreb : rebase pts2 pts2 = pcrOffset := by
    simp only [rebase, durSub, sub_self]
    decide
  rw [writeH264_idle_open env now2 pts2 nalus2 ret.m hidle hscan2]
  rcases finishH264_cases env pcrOffset true nalus2 [Event.newSegment, Event.newDTSEstimator]
    { ret.m with
      currentSegment :=
        some (newMuxerTSSegment ret.m.hlsSegmentMaxSize ret.m.videoTrack ret.m.writer)
      startPCR := now2
      startPTS := pts2
      videoDTSEst := some [] } [] _ rfl rfl
    with ⟨e2, _, h⟩ | ⟨enc, seg1, e2, _, _, h⟩ | ⟨enc, seg1, _, hw, h⟩
  · exact ⟨_, h, rfl, rfl, hreb, ⟨_, rfl⟩, by simp⟩
  · exact ⟨_, h, rfl, rfl, hreb, ⟨_, rfl⟩, by simp⟩
  · dsimp only at hw
    refine ⟨_, h, rfl, rfl, hreb, ⟨_, rfl⟩, fun _ =>
      ⟨durAdd (env.dtsFeed ([] ++ [durSub pcrOffset pts2])) pcrOffset, enc, by simp, ?_⟩⟩
    simp only [hw]

set_option maxRecDepth 20000 in
/-- Counterexample to C3 as stated: on the sample environment with segments of at
most 20 bytes, the first segment opens at PTS 1 s when the clock reads 100; the
second unit does not fit and the call fails; the IDR unit of PTS 5 s, arriving
when the clock reads 300, opens a segment with `startPTS = 5 s` and
`startPCR = 300`, not the origin of the first segment, and is written with PTS
0.5 s, not `5 s - 1 s + 0.5 s`. -/
theorem recovery_resets_origin_sample :
    ∃ r1 r2 r3 dts enc,
      run sampleEnv [Call.h264 100 (1 * second) idrUnit,
        Call.h264 200 (1500 * millisecond) nonIDRUnit,
        Call.h264 300 (5 * second) idrUnit] (sampleGenerator 20) = some [r1, r2, r3] ∧
      r1.err = none ∧ r1.m.currentSegment ≠ none ∧
      r1.m.startPTS = 1 * second ∧ r1.m.startPCR = 100 ∧
      r2.err ≠ none ∧ r2.m.currentSegment = none ∧
      r3.err = none ∧ r3.m.currentSegment ≠ none ∧
      r3.m.startPTS = 5 * second ∧ r3.m.startPTS ≠ r1.m.startPTS ∧
      r3.m.startPCR = 300 ∧ r3.m.startPCR ≠ r1.m.startPCR ∧
      Event.segmentWriteH264 300 dts (500 * millisecond) true enc ∈ r3.events ∧
      rebase (5 * second) r1.m.startPTS = 4500 * millisecond := by
  refine ⟨_, _, _, 500 * millisecond, [0, 0, 0, 1, 9, 240, 0, 0, 0, 1, 0x65, 0x88, 0x84],
    rfl, rfl, ?_, rfl, rfl, ?_, rfl, rfl, ?_, rfl, ?_, rfl, ?_, ?_, rfl⟩
  · decide
  · decide
  · decide
  · decide
  · decide
  · decide

set_option maxRecDepth 20000 in
/-- Witness of C3 as amended: on the sample environment a unit rejected by the
encoder, then an IDR unit of PTS 5 s. -/
theorem writeH264_recovery_new_origin_witness :
    ∃ ret ret2,
      writeH264 sampleEnv 200 (1 * second) badUnit openedGenerator = Outcome.returned ret ∧
      ret.err ≠ none ∧
      writeH264 sampleEnv 300 (5 * second) idrUnit ret.m = Outcome.returned ret2 ∧
      ret2.m.startPTS = 5 * second := by
  obtain ⟨ret, e, hret, herr⟩ : ∃ ret e,
      writeH264 sampleEnv 200 (1 * second) badUnit openedGenerator = Outcome.returned ret ∧
      ret.err = some e := ⟨_, _, rfl, rfl⟩
  obtain ⟨_, ret2, h2, hp, _⟩ :=
    writeH264_recovery_new_origin sampleEnv 200 (1 * second) badUnit openedGenerator ret e
      300 (5 * second) idrUnit hret herr rfl
  exact ⟨ret, ret2, hret, by simp [herr], h2, hp⟩

set_option maxRecDepth 20000 in
/-- C4, evaluated at the failing input. On a generator with an open segment of 13
bytes and an audio track that the ADTS encoder rejects, `writeAAC` returns the
error of the encoder and nothing else happens: the segment is still current and
is not pushed. At the same generator a video unit rejected by the Annex-B encoder
makes `writeH264` push the segment and drop it. -/
theorem writeAAC_encode_error_sample :
    writeAAC sampleEnv 150 (100 * millisecond) [[1, 2, 3]]
        { openedGenerator with audioTrack := some badRateTrack }
      = Outcome.returned
        { err := some { msg := "invalid ADTS packet" }
          m := { openedGenerator with audioTrack := some badRateTrack }
          events := [Event.encodeADTS
            [{ type := 2, sampleRate := 12345, channelCount := 2, au := [1, 2, 3] }]] } ∧
    ∃ ret, writeH264 sampleEnv 150 (100 * millisecond) badUnit
        { openedGenerator with audioTrack := some badRateTrack } = Outcome.returned ret ∧
      ret.err = some { msg := "invalid NALU" } ∧ ret.m.currentSegment = none ∧
      pushed ret.events = [openedSegment] :=
  ⟨rfl, _, rfl, rfl, rfl, rfl⟩

/-- C5. Video failure path. For a call of `writeH264` that reaches the encoder
(lines 65-88 end with the generator `m1`, the rebased PTS `pts1` and the calls
`pre`, and the estimator exists), the segment `seg` that is current at that
point exists and the call returns. If `h264.EncodeAnnexB` returns the error `e`,
the call returns exactly `e`, no segment is current afterwards and, after the
pushes of `pre`, `seg` is pushed if and only if its buffer is not empty; a
failure of the encoder on the unit that opens a segment pushes nothing. If the
segment write returns the error `e` leaving the segment as `seg1`, the call
returns exactly `e`, no segment is current afterwards and `seg1` is pushed if
and only if its buffer is not empty. -/
theorem writeH264_failure_path (env : Env) (now pts : Int) (nalus : List (List Nat))
    (m m1 : muxerTSGenerator) (idr : Bool) (pts1 : Int) (pre : List Event) (fed : List Int)
    (hscan : idrPresent nalus = some idr)
    (hlife : lifecycleH264 now pts idr m = some (m1, pts1, pre))
    (hest : m1.videoDTSEst = some fed) :
    ∃ seg ret, m1.currentSegment = some seg ∧
      writeH264 env now pts nalus m = Outcome.returned ret ∧
      (∀ e, env.encodeAnnexB ([NALUTypeAccessUnitDelimiter, 240] :: nalus) = Except.error e →
        ret.err = some e ∧ ret.m.currentSegment = none ∧
        pushed ret.events = pushed pre ++ (if seg.bufLen > 0 then [seg] else []) ∧
        (m.currentSegment = none → pushed ret.events = [])) ∧
      (∀ enc seg1 e,
        env.encodeAnnexB ([NALUTypeAccessUnitDelimiter, 240] :: nalus) = Except.ok enc →
        env.segmentWriteH264 seg m1.startPCR
          (durAdd (env.dtsFeed (fed ++ [durSub pts1 m1.startPTS])) pcrOffset) pts1 idr enc
          = (seg1, some e) →
        ret.err = some e ∧ ret.m.currentSegment = none ∧
        pushed ret.events = pushed pre ++ (if seg1.bufLen > 0 then [seg1] else [])) := by
  have hseg : ∃ seg, m1.currentSegment = some seg ∧
      (m.currentSegment = none → seg.bufLen = 0 ∧ pushed pre = []) := by
    unfold lifecycleH264 at hlife
    split at hlife
    · split at hlife
      · cases hlife
      · cases hlife
        exact ⟨_, rfl, fun _ => ⟨rfl, rfl⟩⟩
    · rename_i seg0 h0
      dsimp only at hlife
      split at hlife
      · cases hlife
        exact ⟨_, rfl, fun h => by simp [h0] at h⟩
      · cases hlife
        exact ⟨_, h0, fun h => by simp [h0] at h⟩
  obtain ⟨seg, hseg, hidle⟩ := hseg
  have hcall : writeH264 env now pts nalus m = finishH264 env pts1 idr nalus pre m1 := by
    simp only [writeH264, hscan, hlife]
  rw [hcall]
  rcases finishH264_cases env pts1 idr nalus pre m1 fed seg hest hseg
    with ⟨e0, henc, h⟩ | ⟨enc0, s0, e0, henc, hw, h⟩ | ⟨enc0, s0, henc, hw, h⟩
  · refine ⟨seg, _, hseg, h, ?_, ?_⟩
    · intro e he
      rw [henc] at he
      cases he
      refine ⟨rfl, rfl, ?_, ?_⟩
      · by_cases hb : seg.bufLen > 0 <;> simp [pushed_append, pushed, hb]
      · intro hm
        obtain ⟨hb, hp⟩ := hidle hm
        simp [pushed_append, pushed, hb, hp]
    · intro enc seg1 e he
      rw [henc] at he
      cases he
  · refine ⟨seg, _, hseg, h, ?_, ?_⟩
    · intro e he
      rw [henc] at he
      cases he
    · intro enc seg1 e he hw2
      rw [henc] at he
      cases he
      rw [hw] at hw2
      cases hw2
      refine ⟨rfl, rfl, ?_⟩
      by_cases hb : s0.bufLen > 0 <;> simp [pushed_append, pushed, hb]
  · refine ⟨seg, _, hseg, h, ?_, ?_⟩
    · intro e he
      rw [henc] at he
      cases he
    · intro enc seg1 e he hw2
      rw [henc] at he
      cases he
      rw [hw] at hw2
      cases hw2

set_option maxRecDepth 20000 in
/-- Witness of C5: on the sample environment a unit rejected by the encoder
arrives on the open segment of 13 bytes, which is pushed. -/
theorem writeH264_failure_path_witness :
    ∃ ret, writeH264 sampleEnv 200 (1 * second) badUnit openedGenerator = Outcome.returned ret ∧
      ret.err = some { msg := "invalid NALU" } ∧ ret.m.currentSegment = none ∧
      pushed ret.events = [openedSegment] := by
  obtain ⟨seg, ret, hseg, hret, henc, _⟩ :=
    writeH264_failure_path sampleEnv 200 (1 * second) badUnit openedGenerator openedGenerator
      true (1500 * millisecond) [] [500 * millisecond] rfl rfl rfl
  have hs : seg = openedSegment := by
    have : some seg = some openedSegment := hseg.symm.trans rfl
    exact Option.some.inj this
  subst hs
  obtain ⟨h1, h2, h3, _⟩ := henc { msg := "invalid NALU" } rfl
  exact ⟨ret, hret, h1, h2, by rw [h3]; rfl⟩

set_option maxRecDepth 20000 in
/-- C6, evaluated at the failing input. On the sample generator three units of
PTS 0 s, 0.04 s and 0.08 s are written; the sample estimator returns 0, 1 ms and
0.54 s, none of which exceeds the value fed (0.5 s, 0.54 s, 0.58 s); the third
unit is written with the decode timestamp 1.04 s and the presentation timestamp
0.58 s: the value fed is the rebased PTS minus `startPTS`, here the rebased PTS
itself, and `pcrOffset` is added to the output once more. -/
theorem writeH264_dts_after_pts_sample :
    ∃ r1 r2 r3,
      run sampleEnv [Call.h264 100 0 idrUnit, Call.h264 140 (40 * millisecond) nonIDRUnit,
        Call.h264 180 (80 * millisecond) nonIDRUnit] (sampleGenerator 1000)
        = some [r1, r2, r3] ∧
      r1.events = [Event.newSegment, Event.newDTSEstimator,
        Event.feedDTS (500 * millisecond),
        Event.encodeAnnexB [[9, 240], [0x65, 0x88, 0x84]],
        Event.segmentWriteH264 100 (500 * millisecond) (500 * millisecond) true
          [0, 0, 0, 1, 9, 240, 0, 0, 0, 1, 0x65, 0x88, 0x84]] ∧
      r2.events = [Event.feedDTS (540 * millisecond),
        Event.encodeAnnexB [[9, 240], [0x41, 0x9a, 0x24]],
        Event.segmentWriteH264 100 (501 * millisecond) (540 * millisecond) false
          [0, 0, 0, 1, 9, 240, 0, 0, 0, 1, 0x41, 0x9a, 0x24]] ∧
      r3.events = [Event.feedDTS (580 * millisecond),
        Event.encodeAnnexB [[9, 240], [0x41, 0x9a, 0x24]],
        Event.segmentWriteH264 100 (1040 * millisecond) (580 * millisecond) false
          [0, 0, 0, 1, 9, 240, 0, 0, 0, 1, 0x41, 0x9a, 0x24]] ∧
      sampleDTSFeed [500 * millisecond] ≤ 500 * millisecond ∧
      sampleDTSFeed [500 * millisecond, 540 * millisecond] ≤ 540 * millisecond ∧
      sampleDTSFeed [500 * millisecond, 540 * millisecond, 580 * millisecond]
        ≤ 580 * millisecond ∧
      (580 * millisecond : Int) < 1040 * millisecond := by
  refine ⟨_, _, _, rfl, rfl, rfl, rfl, ?_, ?_, ?_, ?_⟩ <;> decide

/-- C7, as amended. A call of `writeH264` without open segment on a unit with
IDR creates a segment and, with it, a new estimator, which after the call holds
the one value fed for this unit. A call of `writeH264` on an open segment,
whether it rotates or not, creates no estimator: the values fed before the call
are still in it and the value of this unit comes after them. -/
theorem writeH264_estimator_lifetime (env : Env) (now pts : Int) (nalus : List (List Nat))
    (m : muxerTSGenerator) (idr : Bool)
    (hscan : idrPresent nalus = some idr)
    (hinv : m.currentSegment ≠ none → m.videoDTSEst ≠ none) :
    ∃ ret, writeH264 env now pts nalus m = Outcome.returned ret ∧
      (m.currentSegment = none → idr = true →
        (∃ rest, ret.events = Event.newSegment :: Event.newDTSEstimator :: rest) ∧
        ret.m.videoDTSEst = some [durSub pcrOffset pts]) ∧
      (∀ seg fed, m.currentSegment = some seg → m.videoDTSEst = some fed →
        Event.newDTSEstimator ∉ ret.events ∧
        ret.m.videoDTSEst = some (fed ++ [durSub (rebase pts m.startPTS) m.startPTS]) ∧
        (sealsAndReplaces ret.events = true ↔
          (idr && durationReached seg (rebase pts m.startPTS) m.hlsSegmentDuration) = true)) := by
  cases hseg : m.currentSegment with
  | none =>
    cases idr with
    | false =>
      rw [writeH264_idle_skip env now pts nalus m hseg hscan]
      exact ⟨_, rfl, by simp, by simp⟩
    | true =>
      rw [writeH264_idle_open env now pts nalus m hseg hscan]
      rcases finishH264_cases env pcrOffset true nalus [Event.newSegment, Event.newDTSEstimator]
        { m with
          currentSegment := some (newMuxerTSSegment m.hlsSegmentMaxSize m.videoTrack m.writer)
          startPCR := now
          startPTS := pts
          videoDTSEst := some [] } [] _ rfl rfl
        with ⟨e, _, h⟩ | ⟨enc, seg1, e, _, _, h⟩ | ⟨enc, seg1, _, _, h⟩ <;>
      exact ⟨_, h, fun _ _ => ⟨⟨_, rfl⟩, rfl⟩, by simp⟩
  | some seg =>
    obtain ⟨fed, hest⟩ : ∃ fed, m.videoDTSEst = some fed :=
      Option.ne_none_iff_exists'.mp (hinv (by simp [hseg]))
    cases hrot : (idr && durationReached seg (rebase pts m.startPTS) m.hlsSegmentDuration) with
    | true =>
      rw [writeH264_open_rotate env now pts nalus m seg idr hseg hscan hrot]
      rcases finishH264_cases env (rebase pts m.startPTS) idr nalus
        [Event.pushSegment { seg with endPTS := rebase pts m.startPTS }, Event.newSegment]
        { m with
          currentSegment := some (newMuxerTSSegment m.hlsSegmentMaxSize m.videoTrack m.writer) }
        fed _ hest rfl
        with ⟨e, _, h⟩ | ⟨enc, seg1, e, _, _, h⟩ | ⟨enc, seg1, _, _, h⟩ <;>
      · refine ⟨_, h, by simp, ?_⟩
        intro seg2 fed2 h2 h3
        cases h2
        rw [hest] at h3
        cases h3
        simp [sealsAndReplaces, hrot]
    | false =>
      rw [writeH264_open_continue env now pts nalus m seg idr hseg hscan hrot]
      rcases finishH264_cases env (rebase pts m.startPTS) idr nalus [] m fed seg hest hseg
        with ⟨e, _, h⟩ | ⟨enc, seg1, e, _, _, h⟩ | ⟨enc, seg1, _, _, h⟩ <;>
      · refine ⟨_, h, by simp, ?_⟩
        intro seg2 fed2 h2 h3
        cases h2
        rw [hest] at h3
        cases h3
        simp [sealsAndReplaces, hrot]

set_option maxRecDepth 20000 in
/-- Counterexample to C7 as stated: on the sample environment the unit of PTS
2.1 s rotates the segment opened at 0 s, no estimator is created, and the
estimator still holds the value fed for the first segment. -/
theorem rotation_keeps_estimator_sample :
    ∃ ret, writeH264 sampleEnv 200 (2100 * millisecond) idrUnit openedGenerator
        = Outcome.returned ret ∧
      sealsAndReplaces ret.events = true ∧ Event.newDTSEstimator ∉ ret.events ∧
      openedGenerator.videoDTSEst = some [500 * millisecond] ∧
      ret.m.videoDTSEst = some [500 * millisecond, 2600 * millisecond] := by
  refine ⟨_, rfl, rfl, ?_, rfl, rfl⟩
  decide

set_option maxRecDepth 20000 in
/-- Witness of C7 as amended: the rotation at 2.1 s on the sample environment. -/
theorem writeH264_estimator_lifetime_witness :
    ∃ ret, writeH264 sampleEnv 200 (2100 * millisecond) idrUnit openedGenerator
        = Outcome.returned ret ∧
      Event.newDTSEstimator ∉ ret.events ∧ sealsAndReplaces ret.events = true := by
  obtain ⟨ret, hret, _, h⟩ :=
    writeH264_estimator_lifetime sampleEnv 200 (2100 * millisecond) idrUnit openedGenerator
      true rfl (by decide)
  obtain ⟨h1, _, h3⟩ := h openedSegment [500 * millisecond] rfl rfl
  exact ⟨ret, hret, h1, h3.mpr rfl⟩

/-! ## Segments start on an IDR -/

/-- C8. On a generator with a video track, along every trace of `writeH264` and
`writeAAC` calls that runs to its end, every segment that is created is
written first by a video unit with IDR, never by an audio unit or a video unit
without IDR, and a segment is created only inside a `writeH264` call whose NALU
list contains an IDR. -/
theorem segments_start_on_IDR (env : Env) (calls : List Call) (m : muxerTSGenerator)
    (rs : List Ret) (hv : m.videoTrack ≠ none) (hrun : run env calls m = some rs) :
    startsOnIDR (eventsOf rs) = true ∧
    ∀ c r, (c, r) ∈ calls.zip rs → Event.newSegment ∈ r.events →
      ∃ now pts nalus, c = Call.h264 now pts nalus ∧ idrPresent nalus = some true :=
  run_scanStarts env calls m rs false hv (by simp) hrun

set_option maxRecDepth 40000 in
/-- Witness of C8: on the sample environment, audio and video units in turn; the
audio unit before the first IDR is dropped, two segments are created. -/
theorem segments_start_on_IDR_witness :
    ∃ rs, run sampleEnv avCalls (sampleGenerator 1000) = some rs ∧
      (eventsOf rs).count Event.newSegment = 2 ∧ startsOnIDR (eventsOf rs) = true := by
  obtain ⟨rs, hrun, hcount⟩ : ∃ rs, run sampleEnv avCalls (sampleGenerator 1000) = some rs ∧
      (eventsOf rs).count Event.newSegment = 2 := ⟨_, rfl, by decide⟩
  exact ⟨rs, hrun, hcount,
    (segments_start_on_IDR sampleEnv avCalls (sampleGenerator 1000) rs (by decide) hrun).1⟩

/-! ## Consecutive pushed segments -/

/-- The induction behind C9: along a trace of successful `writeH264` calls, from
a generator whose open segment has a start PTS and an estimator, and whose open
segment starts at `last` when `last` is the end PTS of the segment pushed
before. -/
theorem run_chain (env : Env) (hsr : StartRule env) (calls : List Call) :
    ∀ (m : muxerTSGenerator) (rs : List Ret) (last : Option Int),
      (∀ c ∈ calls, ∃ now pts nalus, c = Call.h264 now pts nalus) →
      (∀ seg, m.currentSegment = some seg → seg.startPTS ≠ none ∧ m.videoDTSEst ≠ none) →
      (∀ e, last = some e → ∃ seg, m.currentSegment = some seg ∧ seg.startPTS = some e) →
      run env calls m = some rs → (∀ r ∈ rs, r.err = none) →
      List.Chain' (fun a b => b.startPTS = some a.endPTS) (pushed (eventsOf rs)) ∧
      ∀ e p, last = some e → (pushed (eventsOf rs)).head? = some p → p.startPTS = some e := by
  induction calls with
  | nil =>
    intro m rs last _ _ _ hrun _
    simp only [run, Option.some.injEq] at hrun
    subst hrun
    simp [eventsOf, pushed]
  | cons c cs ih =>
    intro m rs last hvid hinv hlast hrun hok
    obtain ⟨now, pts, nalus, rfl⟩ := hvid c (List.mem_cons_self _ _)
    have hvid1 : ∀ c ∈ cs, ∃ now pts nalus, c = Call.h264 now pts nalus :=
      fun c hc => hvid c (List.mem_cons_of_mem _ hc)
    simp only [run, step] at hrun
    cases hstep : writeH264 env now pts nalus m with
    | panicked p => simp [hstep] at hrun
    | returned r =>
      simp only [hstep] at hrun
      cases hrest : run env cs r.m with
      | none => simp [hrest] at hrun
      | some rs1 =>
        simp only [hrest, Option.some.injEq] at hrun
        subst hrun
        have herr : r.err = none := hok r (List.mem_cons_self _ _)
        have hok1 : ∀ r1 ∈ rs1, r1.err = none := fun r1 h1 => hok r1 (List.mem_cons_of_mem _ h1)
        cases hscan : idrPresent nalus with
        | none => simp [writeH264, hscan] at hstep
        | some idr =>
          cases hseg : m.currentSegment with
          | none =>
            have hl : last = none := by
              cases last with
              | none => rfl
              | some e =>
                obtain ⟨seg, h1, _⟩ := hlast e rfl
                simp [hseg] at h1
            subst hl
            cases idr with
            | false =>
              rw [writeH264_idle_skip env now pts nalus m hseg hscan] at hstep
              cases hstep
              have := ih m rs1 none hvid1 hinv (by simp) hrest hok1
              simpa [eventsOf] using this
            | true =>
              obtain ⟨-, -, -, hest1, -, hpu, seg1, hs1, hst1⟩ :=
                writeH264_idle_ok env now pts nalus m r hseg hscan hstep herr hsr
              have := ih r.m rs1 none hvid1
                (by
                  intro seg h
                  rw [hs1] at h
                  cases h
                  simp [hst1, hest1])
                (by simp) hrest hok1
              simpa [eventsOf, pushed_append, hpu] using this
          | some seg =>
            obtain ⟨hne, hene⟩ := hinv seg hseg
            obtain ⟨s, hs⟩ := Option.ne_none_iff_exists'.mp hne
            obtain ⟨fed, hest⟩ := Option.ne_none_iff_exists'.mp hene
            obtain ⟨-, -, -, hest1, hrot, hcont⟩ :=
              writeH264_open_ok env now pts nalus m seg idr fed r hseg hest hscan hstep herr hsr
            cases hr :
                (idr && durationReached seg (rebase pts m.startPTS) m.hlsSegmentDuration) with
            | true =>
              obtain ⟨-, hpu, seg1, hs1, hst1⟩ := hrot hr
              obtain ⟨ih1, ih2⟩ := ih r.m rs1 (some (rebase pts m.startPTS)) hvid1
                (by
                  intro seg2 h
                  rw [hs1] at h
                  cases h
                  simp [hst1, hest1])
                (by
                  intro e he
                  cases he
                  exact ⟨seg1, hs1, hst1⟩)
                hrest hok1
              simp only [eventsOf, pushed_append, hpu, List.singleton_append, List.head?_cons,
                Option.some.injEq]
              refine ⟨?_, ?_⟩
              · rw [List.chain'_cons']
                refine ⟨?_, ih1⟩
                intro q hq
                exact ih2 _ q rfl hq
              · intro e p he hp
                subst hp
                obtain ⟨seg2, h2, h3⟩ := hlast e he
                rw [hseg] at h2
                cases h2
                exact h3
            | false =>
              obtain ⟨-, hpu, seg1, hs1, hst1⟩ := hcont hr
              rw [hs, Option.getD_some] at hst1
              have := ih r.m rs1 last hvid1
                (by
                  intro seg2 h
                  rw [hs1] at h
                  cases h
                  simp [hst1, hest1])
                (by
                  intro e he
                  obtain ⟨seg2, h2, h3⟩ := hlast e he
                  rw [hseg] at h2
                  cases h2
                  rw [hs] at h3
                  cases h3
                  exact ⟨seg1, hs1, hst1⟩)
                hrest hok1
              simpa [eventsOf, pushed_append, hpu] using this

/-- C9, as amended. Along every trace of `writeH264` calls that starts without
open segment and in which every call succeeds (the start PTS of a segment being
the PTS of the first unit written to it), each pushed segment ends where the
segment pushed next starts: the start PTS of the successor is set and equal to
the end PTS of the sealed segment, so `endPTS <= startPTS` holds with equality,
both being the rebased PTS of the rotating unit. -/
theorem pushed_segments_chain (env : Env) (calls : List Call) (m : muxerTSGenerator)
    (rs : List Ret) (hsr : StartRule env)
    (hvid : ∀ c ∈ calls, ∃ now pts nalus, c = Call.h264 now pts nalus)
    (hidle : m.currentSegment = none)
    (hrun : run env calls m = some rs) (hok : ∀ r ∈ rs, r.err = none) :
    List.Chain' (fun a b => b.startPTS = some a.endPTS ∧
        ∃ s, b.startPTS = some s ∧ a.endPTS ≤ s) (pushed (eventsOf rs)) := by
  have h := (run_chain env hsr calls m rs none hvid (by simp [hidle]) (by simp) hrun hok).1
  refine List.Chain'.imp ?_ h
  intro a b hab
  exact ⟨hab, a.endPTS, hab, le_refl _⟩

set_option maxRecDepth 40000 in
/-- Counterexample to C9 as stated: on the sample environment with segments of at
most 30 bytes, the third and the sixth unit do not fit; the two segments are
pushed by the failure path, the first with `endPTS = 5.5 s`, the second, opened
by the IDR that follows the first failure, with `startPTS = 0.5 s`. -/
theorem pushed_segments_overlap_sample :
    ∃ rs s1 s2,
      run sampleEnv [Call.h264 0 0 idrUnit, Call.h264 1 (5 * second) nonIDRUnit,
        Call.h264 2 (5100 * millisecond) nonIDRUnit, Call.h264 3 (6 * second) idrUnit,
        Call.h264 4 (6100 * millisecond) nonIDRUnit,
        Call.h264 5 (6200 * millisecond) nonIDRUnit] (sampleGenerator 30) = some rs ∧
      pushed (eventsOf rs) = [s1, s2] ∧
      s1.endPTS = 5500 * millisecond ∧ s2.startPTS = some (500 * millisecond) ∧
      ¬ (s1.endPTS ≤ 500 * millisecond) := by
  refine ⟨_, _, _, rfl, rfl, rfl, rfl, ?_⟩
  decide

set_option maxRecDepth 40000 in
/-- Witness of C9 as amended: the four units of the scenario on the sample
environment push two segments. -/
theorem pushed_segments_chain_witness :
    ∃ rs, run sampleEnv scenarioCalls (sampleGenerator 1000) = some rs ∧
      (pushed (eventsOf rs)).length = 2 ∧
      List.Chain' (fun a b => b.startPTS = some a.endPTS ∧
        ∃ s, b.startPTS = some s ∧ a.endPTS ≤ s) (pushed (eventsOf rs)) := by
  refine ⟨_, rfl, rfl, ?_⟩
  refine pushed_segments_chain sampleEnv scenarioCalls (sampleGenerator 1000) _
    sampleEnv_startRule ?_ rfl rfl ?_
  · intro c hc
    simp only [scenarioCalls, List.mem_cons, List.mem_singleton, List.not_mem_nil,
      or_false] at hc
    rcases hc with rfl | rfl | rfl | rfl <;> exact ⟨_, _, _, rfl⟩
  · intro r hr
    simp only [List.mem_cons, List.mem_singleton, List.not_mem_nil, or_false] at hr
    rcases hr with rfl | rfl | rfl | rfl <;> rfl

/-! ## Units before the first IDR -/

/-- The scan of a list of NALUs that all have a type other than IDR. -/
theorem idrPresent_of_no_IDR (nalus : List (List Nat))
    (h : ∀ n ∈ nalus, ∃ t, naluType n = some t ∧ t ≠ NALUTypeIDR) :
    idrPresent nalus = some false := by
  induction nalus with
  | nil => rfl
  | cons n rest ih =>
    obtain ⟨t, ht, hne⟩ := h n (List.mem_cons_self _ _)
    cases n with
    | nil => simp [naluType] at ht
    | cons b bs =>
      simp only [naluType, List.head?_cons, Option.map_some', Option.some.injEq] at ht
      subst ht
      simp only [idrPresent, if_neg hne]
      exact ih fun n hn => h n (List.mem_cons_of_mem _ hn)

/-- C10. Idle discard. On a generator without open segment, a call of
`writeH264` whose NALUs all have a type other than IDR returns nil, calls no
collaborator (neither the encoder nor the playlist) and leaves every field of
the generator unchanged; hence any run of such units leaves the generator as
it was, every call returning nil with no call made on a collaborator, so that
nothing is pushed. -/
theorem writeH264_idle_discard (env : Env) (m : muxerTSGenerator)
    (hidle : m.currentSegment = none) :
    (∀ now pts nalus, (∀ n ∈ nalus, ∃ t, naluType n = some t ∧ t ≠ NALUTypeIDR) →
      writeH264 env now pts nalus m = Outcome.returned { err := none, m := m, events := [] }) ∧
    (∀ units : List (Int × Int × List (List Nat)),
      (∀ u ∈ units, ∀ n ∈ u.2.2, ∃ t, naluType n = some t ∧ t ≠ NALUTypeIDR) →
      run env (units.map fun u => Call.h264 u.1 u.2.1 u.2.2) m
        = some (units.map fun _ => { err := none, m := m, events := [] }) ∧
      finalOf m (units.map fun _ => { err := none, m := m, events := [] }) = m ∧
      pushed (eventsOf (units.map fun _ => { err := none, m := m, events := [] })) = []) := by
  have hone : ∀ now pts nalus, (∀ n ∈ nalus, ∃ t, naluType n = some t ∧ t ≠ NALUTypeIDR) →
      writeH264 env now pts nalus m
        = Outcome.returned { err := none, m := m, events := [] } :=
    fun now pts nalus h =>
      writeH264_idle_skip env now pts nalus m hidle (idrPresent_of_no_IDR nalus h)
  refine ⟨hone, ?_⟩
  intro units
  induction units with
  | nil => intro _; exact ⟨rfl, rfl, rfl⟩
  | cons u us ih =>
    intro h
    obtain ⟨ih1, ih2, ih3⟩ := ih fun v hv => h v (List.mem_cons_of_mem _ hv)
    refine ⟨?_, ?_, ?_⟩
    · simp only [List.map_cons, run, step, hone u.1 u.2.1 u.2.2 (h u (List.mem_cons_self _ _)),
        ih1]
    · simpa [finalOf] using ih2
    · simpa [eventsOf] using ih3

/-- Witness of C10: two units without IDR on the sample generator, which has no
open segment. -/
theorem writeH264_idle_discard_witness :
    run sampleEnv [Call.h264 0 0 nonIDRUnit, Call.h264 1 (40 * millisecond) nonIDRUnit]
        (sampleGenerator 1000)
      = some [{ err := none, m := sampleGenerator 1000, events := [] },
          { err := none, m := sampleGenerator 1000, events := [] }] :=
  ((writeH264_idle_discard sampleEnv (sampleGenerator 1000) rfl).2
    [(0, 0, nonIDRUnit), (1, 40 * millisecond, nonIDRUnit)] (by decide)).1

/-! ## The shape of a call of writeAAC -/

/-- A call of `writeAAC` with a video track and no open segment. -/
theorem writeAAC_video_idle (env : Env) (now pts : Int) (aus : List (List Nat))
    (m : muxerTSGenerator) (hv : m.videoTrack ≠ none) (hseg : m.currentSegment = none) :
    writeAAC env now pts aus m = Outcome.returned { err := none, m := m, events := [] } := by
  simp [writeAAC, lifecycleAAC, hv, hseg]

/-- A call of `writeAAC` with a video track and an open segment. -/
theorem writeAAC_video_open (env : Env) (now pts : Int) (aus : List (List Nat))
    (m : muxerTSGenerator) (seg : muxerTSSegment)
    (hv : m.videoTrack ≠ none) (hseg : m.currentSegment = some seg) :
    writeAAC env now pts aus m = finishAAC env (rebase pts m.startPTS) aus [] m := by
  simp [writeAAC, lifecycleAAC, hv, hseg]

/-- A call of `writeAAC` without video track and without open segment. -/
theorem writeAAC_audio_idle (env : Env) (now pts : Int) (aus : List (List Nat))
    (m : muxerTSGenerator) (hv : m.videoTrack = none) (hseg : m.currentSegment = none) :
    writeAAC env now pts aus m =
      finishAAC env pcrOffset aus [Event.newSegment]
        { m with
          currentSegment := some (newMuxerTSSegment m.hlsSegmentMaxSize m.videoTrack m.writer)
          startPCR := now
          startPTS := pts } := by
  simp [writeAAC, lifecycleAAC, hv, hseg]

/-- A call of `writeAAC` without video track on an open segment when the
rotation test holds. -/
theorem writeAAC_audio_rotate (env : Env) (now pts : Int) (aus : List (List Nat))
    (m : muxerTSGenerator) (seg : muxerTSSegment)
    (hv : m.videoTrack = none) (hseg : m.currentSegment = some seg)
    (hrot : (decide (seg.audioAUCount ≥ segmentMinAUCount)
      && durationReached seg (rebase pts m.startPTS) m.hlsSegmentDuration) = true) :
    writeAAC env now pts aus m =
      finishAAC env (rebase pts m.startPTS) aus
        [Event.pushSegment { seg with endPTS := rebase pts m.startPTS }, Event.newSegment]
        { m with
          currentSegment := some (newMuxerTSSegment m.hlsSegmentMaxSize m.videoTrack m.writer) } := by
  simp only [writeAAC, lifecycleAAC, hv, hseg, hrot, if_true]

/-- A call of `writeAAC` without video track on an open segment when the
rotation test fails. -/
theorem writeAAC_audio_continue (env : Env) (now pts : Int) (aus : List (List Nat))
    (m : muxerTSGenerator) (seg : muxerTSSegment)
    (hv : m.videoTrack = none) (hseg : m.currentSegment = some seg)
    (hrot : (decide (seg.audioAUCount ≥ segmentMinAUCount)
      && durationReached seg (rebase pts m.startPTS) m.hlsSegmentDuration) = false) :
    writeAAC env now pts aus m = finishAAC env (rebase pts m.startPTS) aus [] m := by
  simp [writeAAC, lifecycleAAC, hv, hseg, hrot]

/-! ## Audio units -/

/-- C11. Audio with a video track. For a call of `writeAAC` on a generator whose
`videoTrack` is not nil: without open segment the call returns nil, calls no
collaborator and leaves the generator unchanged; on an open segment `seg`, when
the packets can be built and the encoder and the write succeed, the calls made
are the encoding and one write, with PTS `pts - startPTS + pcrOffset`, the
segment that is current afterwards is `seg` as the write left it, nothing is
pushed and no segment is created. Whatever the outcome of a call that returns,
it creates no segment and seals none: audio never rotates. -/
theorem writeAAC_with_video (env : Env) (now pts : Int) (aus : List (List Nat))
    (m : muxerTSGenerator) (hv : m.videoTrack ≠ none) :
    (m.currentSegment = none →
      writeAAC env now pts aus m = Outcome.returned { err := none, m := m, events := [] }) ∧
    (∀ seg pkts enc seg1, m.currentSegment = some seg →
      makePackets m.audioTrack aus = some pkts → env.encodeADTS pkts = Except.ok enc →
      env.segmentWriteAAC seg m.startPCR (rebase pts m.startPTS) enc aus.length = (seg1, none) →
      writeAAC env now pts aus m = Outcome.returned
        { err := none
          m := { m with currentSegment := some seg1 }
          events := [Event.encodeADTS pkts,
            Event.segmentWriteAAC m.startPCR (rebase pts m.startPTS) enc aus.length] }) ∧
    (∀ ret, writeAAC env now pts aus m = Outcome.returned ret →
      Event.newSegment ∉ ret.events ∧ sealsAndReplaces ret.events = false ∧
      (ret.err = none → pushed ret.events = [])) := by
  refine ⟨fun h => writeAAC_video_idle env now pts aus m hv h, ?_, ?_⟩
  · intro seg pkts enc seg1 hseg hpk henc hw
    rw [writeAAC_video_open env now pts aus m seg hv hseg]
    simp [finishAAC, hpk, henc, hseg, hw]
  · intro ret hret
    cases hseg : m.currentSegment with
    | none =>
      rw [writeAAC_video_idle env now pts aus m hv hseg] at hret
      cases hret
      simp [sealsAndReplaces, pushed]
    | some seg =>
      rw [writeAAC_video_open env now pts aus m seg hv hseg] at hret
      cases hpk : makePackets m.audioTrack aus with
      | none => simp [finishAAC, hpk] at hret
      | some pkts =>
        rcases finishAAC_cases env (rebase pts m.startPTS) aus [] m pkts seg hpk hseg
          with ⟨e, _, h⟩ | ⟨enc, seg1, e, _, _, h⟩ | ⟨enc, seg1, _, _, h⟩
        · rw [h] at hret; cases hret
          simp [sealsAndReplaces]
        · rw [h] at hret; cases hret
          by_cases hb : seg1.bufLen > 0 <;> simp [sealsAndReplaces, hb]
        · rw [h] at hret; cases hret
          simp [sealsAndReplaces, pushed]

set_option maxRecDepth 20000 in
/-- Witness of C11: an audio unit on the segment opened by the first video unit
of the scenario. -/
theorem writeAAC_with_video_witness :
    ∃ ret, writeAAC sampleEnv 150 (20 * millisecond) [[1, 2]] openedGenerator
        = Outcome.returned ret ∧
      Event.newSegment ∉ ret.events ∧ sealsAndReplaces ret.events = false ∧
      pushed ret.events = [] := by
  obtain ⟨ret, hret, herr⟩ : ∃ ret,
      writeAAC sampleEnv 150 (20 * millisecond) [[1, 2]] openedGenerator
        = Outcome.returned ret ∧ ret.err = none := ⟨_, rfl, rfl⟩
  obtain ⟨h1, h2, h3⟩ :=
    (writeAAC_with_video sampleEnv 150 (20 * millisecond) [[1, 2]] openedGenerator
      (by decide)).2.2 ret hret
  exact ⟨ret, hret, h1, h2, h3 herr⟩

/-- C12. Audio-only rotation. For a call of `writeAAC` on a generator without
video track, with an open segment `seg` whose start PTS is `s` (the packets can
be built), the call returns, the timeline origin is unchanged, and the segment
is sealed and replaced if and only if `seg.audioAUCount >= 100` and
`rebased - s >= hlsSegmentDuration`. When it rotates, the first two calls are
the push of `seg` with `endPTS = rebased` and the creation of a new segment,
and the new segment takes the place of `seg`: on success the current segment is
the new segment as the write of this unit left it, and when the encoder fails
it is the new, empty segment. When it does not rotate, the current segment is
`seg` as the write left it, or `seg` itself when the encoder fails. In
particular a segment with fewer than 100 audio units is not sealed, whatever
its duration, and no segment is created. -/
theorem writeAAC_rotation_rule (env : Env) (now pts : Int) (aus : List (List Nat))
    (m : muxerTSGenerator) (seg : muxerTSSegment) (s : Int) (pkts : List ADTSPacket)
    (hv : m.videoTrack = none) (hseg : m.currentSegment = some seg)
    (hs : seg.startPTS = some s) (hpk : makePackets m.audioTrack aus = some pkts) :
    ∃ ret, writeAAC env now pts aus m = Outcome.returned ret ∧
      (sealsAndReplaces ret.events = true ↔
        (seg.audioAUCount ≥ 100 ∧ m.hlsSegmentDuration ≤ durSub (rebase pts m.startPTS) s)) ∧
      (sealsAndReplaces ret.events = true →
        ∃ rest, ret.events =
          Event.pushSegment { seg with endPTS := rebase pts m.startPTS }
            :: Event.newSegment :: rest ∧ Event.newSegment ∉ rest ∧
          (ret.err = none →
            pushed ret.events = [{ seg with endPTS := rebase pts m.startPTS }])) ∧
      (seg.audioAUCount < 100 →
        sealsAndReplaces ret.events = false ∧ Event.newSegment ∉ ret.events) ∧
      ret.m.startPTS = m.startPTS ∧ ret.m.startPCR = m.startPCR ∧
      (sealsAndReplaces ret.events = true →
        (ret.err = none → ∃ enc,
          Event.segmentWriteAAC m.startPCR (rebase pts m.startPTS) enc aus.length
            ∈ ret.events ∧
          ret.m.currentSegment = some (env.segmentWriteAAC
            (newMuxerTSSegment m.hlsSegmentMaxSize m.videoTrack m.writer)
            m.startPCR (rebase pts m.startPTS) enc aus.length).1) ∧
        (∀ e, env.encodeADTS pkts = Except.error e →
          ret.m.currentSegment
            = some (newMuxerTSSegment m.hlsSegmentMaxSize m.videoTrack m.writer))) ∧
      (sealsAndReplaces ret.events = false →
        (ret.err = none → pushed ret.events = [] ∧ ∃ enc,
          Event.segmentWriteAAC m.startPCR (rebase pts m.startPTS) enc aus.length
            ∈ ret.events ∧
          ret.m.currentSegment = some (env.segmentWriteAAC seg
            m.startPCR (rebase pts m.startPTS) enc aus.length).1) ∧
        (∀ e, env.encodeADTS pkts = Except.error e → ret.m.currentSegment = some seg)) := by
  have hiff : (decide (seg.audioAUCount ≥ segmentMinAUCount)
      && durationReached seg (rebase pts m.startPTS) m.hlsSegmentDuration) = true ↔
      (seg.audioAUCount ≥ 100 ∧ m.hlsSegmentDuration ≤ durSub (rebase pts m.startPTS) s) := by
    rw [Bool.and_eq_true, durationReached_iff, decide_eq_true_eq]
    simp [hs, segmentMinAUCount]
  cases hrot : (decide (seg.audioAUCount ≥ segmentMinAUCount)
      && durationReached seg (rebase pts m.startPTS) m.hlsSegmentDuration) with
  | true =>
    have hcond := hiff.mp hrot
    rw [writeAAC_audio_rotate env now pts aus m seg hv hseg hrot]
    rcases finishAAC_cases env (rebase pts m.startPTS) aus
      [Event.pushSegment { seg with endPTS := rebase pts m.startPTS }, Event.newSegment]
      { m with
        currentSegment := some (newMuxerTSSegment m.hlsSegmentMaxSize m.videoTrack m.writer) }
      pkts _ hpk rfl
      with ⟨e, _, h⟩ | ⟨enc, seg1, e, henc, _, h⟩ | ⟨enc, seg1, henc, hw, h⟩
    · refine ⟨_, h, by simpa [sealsAndReplaces] using hcond, fun _ => ⟨_, rfl, by simp,
        by simp⟩, fun hlt => absurd hcond.1 (not_le.mpr hlt), rfl, rfl,
        fun _ => ⟨by simp, fun _ _ => rfl⟩, by simp [sealsAndReplaces]⟩
    · refine ⟨_, h, by simpa [sealsAndReplaces] using hcond, fun _ => ⟨_, rfl, ?_,
        by simp⟩, fun hlt => absurd hcond.1 (not_le.mpr hlt), rfl, rfl,
        fun _ => ⟨by simp, fun e0 he0 => ?_⟩, by simp [sealsAndReplaces]⟩
      · by_cases hb : seg1.bufLen > 0 <;> simp [hb]
      · rw [henc] at he0; cases he0
    · dsimp only at hw
      refine ⟨_, h, by simpa [sealsAndReplaces] using hcond, fun _ => ⟨_, rfl, by simp,
        fun _ => by simp [pushed]⟩, fun hlt => absurd hcond.1 (not_le.mpr hlt), rfl, rfl,
        fun _ => ⟨fun _ => ⟨enc, by simp, ?_⟩, fun e0 he0 => ?_⟩, by simp [sealsAndReplaces]⟩
      · simp only [hw]
      · rw [henc] at he0; cases he0
  | false =>
    have hncond : ¬ (seg.audioAUCount ≥ 100 ∧
        m.hlsSegmentDuration ≤ durSub (rebase pts m.startPTS) s) := by
      rw [← hiff, hrot]; simp
    rw [writeAAC_audio_continue env now pts aus m seg hv hseg hrot]
    rcases finishAAC_cases env (rebase pts m.startPTS) aus [] m pkts seg hpk hseg
      with ⟨e, _, h⟩ | ⟨enc, seg1, e, henc, _, h⟩ | ⟨enc, seg1, henc, hw, h⟩
    · refine ⟨_, h, ?_, ?_, ?_, rfl, rfl, by simp [sealsAndReplaces],
        fun _ => ⟨by simp, fun _ _ => hseg⟩⟩
      · simpa [sealsAndReplaces] using hncond
      · simp [sealsAndReplaces]
      · intro _; simp [sealsAndReplaces]
    · refine ⟨_, h, ?_, ?_, ?_, rfl, rfl, by simp [sealsAndReplaces],
        fun _ => ⟨by simp, fun e0 he0 => ?_⟩⟩
      · simpa [sealsAndReplaces] using hncond
      · simp [sealsAndReplaces]
      · intro _
        by_cases hb : seg1.bufLen > 0 <;> simp [sealsAndReplaces, hb]
      · rw [henc] at he0; cases he0
    · refine ⟨_, h, ?_, ?_, ?_, rfl, rfl, by simp [sealsAndReplaces],
        fun _ => ⟨fun _ => ⟨by simp [pushed], enc, by simp, ?_⟩, fun e0 he0 => ?_⟩⟩
      · simpa [sealsAndReplaces] using hncond
      · simp [sealsAndReplaces]
      · intro _; simp [sealsAndReplaces]
      · simp only [hw]
      · rw [henc] at he0; cases he0

set_option maxRecDepth 20000 in
/-- Witness of C12: an audio unit 2.5 s after the start of the segment rotates a
segment of 120 access units and does not rotate a segment of 50. -/
theorem writeAAC_rotation_rule_witness :
    (∃ ret, writeAAC sampleEnv 200 (2500 * millisecond) [[1, 2]] (audioOnlyGenerator 120)
        = Outcome.returned ret ∧ sealsAndReplaces ret.events = true ∧
      ret.m.currentSegment ≠ some (audioSegment 120)) ∧
    (∃ ret, writeAAC sampleEnv 200 (2500 * millisecond) [[1, 2]] (audioOnlyGenerator 50)
        = Outcome.returned ret ∧ sealsAndReplaces ret.events = false) := by
  refine ⟨?_, ?_⟩
  · obtain ⟨ret, hret, hiff, _⟩ :=
      writeAAC_rotation_rule sampleEnv 200 (2500 * millisecond) [[1, 2]]
        (audioOnlyGenerator 120) (audioSegment 120) (500 * millisecond) _ rfl rfl rfl rfl
    obtain ⟨r0, h0, h1⟩ : ∃ r0,
        writeAAC sampleEnv 200 (2500 * millisecond) [[1, 2]] (audioOnlyGenerator 120)
          = Outcome.returned r0 ∧ r0.m.currentSegment ≠ some (audioSegment 120) :=
      ⟨_, rfl, by decide⟩
    rw [hret] at h0
    cases h0
    exact ⟨ret, hret, hiff.mpr (by decide), h1⟩
  · obtain ⟨ret, hret, _, _, hlt, _⟩ :=
      writeAAC_rotation_rule sampleEnv 200 (2500 * millisecond) [[1, 2]]
        (audioOnlyGenerator 50) (audioSegment 50) (500 * millisecond) _ rfl rfl rfl rfl
    exact ⟨ret, hret, (hlt (by decide)).1⟩

/-! ## What a call that returns wrote -/

/-- A value in the int64 range is not changed by the wrap-around. -/
theorem wrap64_of_range (x : Int) (h1 : -2 ^ 63 ≤ x) (h2 : x < 2 ^ 63) : wrap64 x = x := by
  unfold wrap64
  norm_num at h1 h2 ⊢
  omega

/-- The rebasing when it does not wrap around. -/
theorem rebase_of_range (pts startPTS : Int) (h1 : -2 ^ 63 ≤ pts - startPTS)
    (h2 : pts - startPTS + pcrOffset < 2 ^ 63) :
    rebase pts startPTS = pts - startPTS + pcrOffset := by
  unfold rebase durAdd durSub wrap64 pcrOffset millisecond at *
  norm_num at h1 h2 ⊢
  omega

/-- A trace of at least one call that runs to its end: the first call returns and
the other calls run from the generator it leaves. -/
theorem run_cons_some (env : Env) (c : Call) (cs : List Call) (m : muxerTSGenerator)
    (rs : List Ret) (h : run env (c :: cs) m = some rs) :
    ∃ r rs1, step env c m = Outcome.returned r ∧ run env cs r.m = some rs1 ∧ rs = r :: rs1 := by
  simp only [run] at h
  cases hstep : step env c m with
  | panicked p => simp [hstep] at h
  | returned r =>
    simp only [hstep] at h
    cases hrest : run env cs r.m with
    | none => simp [hrest] at h
    | some rs1 =>
      simp only [hrest, Option.some.injEq] at h
      exact ⟨r, rs1, rfl, hrest, h.symm⟩

/-- The written PTS of two lists of events, one after the other. -/
theorem writtenPTS_append (a b : List Event) :
    writtenPTS (a ++ b) = writtenPTS a ++ writtenPTS b := by
  simp [writtenPTS, List.filterMap_append]

/-- What `finishH264` leaves when it returns: it made at most one write, with
the PTS it was entered with, and exactly one when it succeeds; the origin and
the tracks are untouched; a success keeps a segment current, a failure none;
the estimator existed and still exists. -/
theorem finishH264_facts (env : Env) (pts : Int) (idr : Bool) (nalus : List (List Nat))
    (pre : List Event) (m : muxerTSGenerator) (r : Ret)
    (h : finishH264 env pts idr nalus pre m = Outcome.returned r) :
    (writtenPTS r.events = writtenPTS pre ∨ writtenPTS r.events = writtenPTS pre ++ [pts]) ∧
    (r.err = none → writtenPTS r.events = writtenPTS pre ++ [pts]) ∧
    r.m.startPTS = m.startPTS ∧ r.m.videoTrack = m.videoTrack ∧
    (r.err = none → r.m.currentSegment ≠ none) ∧
    (r.err ≠ none → r.m.currentSegment = none) ∧
    m.videoDTSEst ≠ none ∧ r.m.videoDTSEst ≠ none := by
  cases hest : m.videoDTSEst with
  | none => simp [finishH264, hest] at h
  | some fed =>
    cases hseg : m.currentSegment with
    | none => simp [finishH264, hest, hseg] at h
    | some seg =>
      rcases finishH264_cases env pts idr nalus pre m fed seg hest hseg
        with ⟨e, _, h1⟩ | ⟨enc, seg1, e, _, _, h1⟩ | ⟨enc, seg1, _, _, h1⟩
      · rw [h1] at h; cases h
        refine ⟨Or.inl ?_, by simp, rfl, rfl, by simp, by simp, by simp, by simp⟩
        by_cases hb : seg.bufLen > 0 <;> simp [writtenPTS, writePTS, hb]
      · rw [h1] at h; cases h
        refine ⟨Or.inr ?_, by simp, rfl, rfl, by simp, by simp, by simp, by simp⟩
        by_cases hb : seg1.bufLen > 0 <;> simp [writtenPTS, writePTS, hb]
      · rw [h1] at h; cases h
        refine ⟨Or.inr ?_, fun _ => ?_, rfl, rfl, by simp, by simp, by simp, by simp⟩ <;>
          simp [writtenPTS, writePTS]

/-- What `finishAAC` leaves when it returns: it made at most one write, with the
PTS it was entered with, and exactly one when it succeeds; the origin, the
tracks and the estimator are untouched; a success keeps a segment current. -/
theorem finishAAC_facts (env : Env) (pts : Int) (aus : List (List Nat))
    (pre : List Event) (m : muxerTSGenerator) (r : Ret) (seg : muxerTSSegment)
    (hseg : m.currentSegment = some seg)
    (h : finishAAC env pts aus pre m = Outcome.returned r) :
    (writtenPTS r.events = writtenPTS pre ∨ writtenPTS r.events = writtenPTS pre ++ [pts]) ∧
    (r.err = none → writtenPTS r.events = writtenPTS pre ++ [pts]) ∧
    r.m.startPTS = m.startPTS ∧ r.m.videoTrack = m.videoTrack ∧
    r.m.videoDTSEst = m.videoDTSEst ∧
    (r.err = none → r.m.currentSegment ≠ none) := by
  cases hpk : makePackets m.audioTrack aus with
  | none => simp [finishAAC, hpk] at h
  | some pkts =>
    rcases finishAAC_cases env pts aus pre m pkts seg hpk hseg
      with ⟨e, _, h1⟩ | ⟨enc, seg1, e, _, _, h1⟩ | ⟨enc, seg1, _, _, h1⟩
    · rw [h1] at h; cases h
      exact ⟨Or.inl (by simp [writtenPTS, writePTS]), by simp, rfl, rfl, rfl, by simp⟩
    · rw [h1] at h; cases h
      refine ⟨Or.inr ?_, by simp, rfl, rfl, rfl, by simp⟩
      by_cases hb : seg1.bufLen > 0 <;> simp [writtenPTS, writePTS, hb]
    · rw [h1] at h; cases h
      refine ⟨Or.inr ?_, fun _ => ?_, rfl, rfl, rfl, by simp⟩ <;>
        simp [writtenPTS, writePTS]

/-- What one call that returns wrote and left. It made at most one segment
write, whose PTS is `pcrOffset` when no segment was open and
`pts - startPTS + pcrOffset` otherwise. When it succeeds, either it did nothing
at all on a generator without open segment, or it made exactly that write, a
segment is current afterwards and the origin is the one in force before, or the
PTS of this call when no segment was open. -/
theorem step_facts (env : Env) (c : Call) (m : muxerTSGenerator) (r : Ret)
    (hstep : step env c m = Outcome.returned r) :
    (writtenPTS r.events = [] ∨
      writtenPTS r.events
        = [if m.currentSegment = none then pcrOffset else rebase c.pts m.startPTS]) ∧
    (r.err = none →
      (m.currentSegment = none ∧ r.m = m ∧ r.events = []) ∨
      (writtenPTS r.events
          = [if m.currentSegment = none then pcrOffset else rebase c.pts m.startPTS] ∧
        r.m.currentSegment ≠ none ∧
        r.m.startPTS = if m.currentSegment = none then c.pts else m.startPTS)) := by
  cases c with
  | h264 now pts nalus =>
    simp only [step] at hstep
    simp only [Call.pts]
    cases hscan : idrPresent nalus with
    | none => simp [writeH264, hscan] at hstep
    | some idr =>
      cases hseg : m.currentSegment with
      | none =>
        cases idr with
        | false =>
          rw [writeH264_idle_skip env now pts nalus m hseg hscan] at hstep
          cases hstep
          exact ⟨Or.inl rfl, fun _ => Or.inl ⟨rfl, rfl, rfl⟩⟩
        | true =>
          rw [writeH264_idle_open env now pts nalus m hseg hscan] at hstep
          obtain ⟨h1, h2, h3, -, h5, -⟩ := finishH264_facts env _ _ _ _ _ r hstep
          simp only [writtenPTS, writePTS, List.filterMap_cons, List.filterMap_nil,
            List.nil_append] at h1 h2
          refine ⟨by simpa [writtenPTS] using h1, fun he => Or.inr ⟨?_, h5 he, ?_⟩⟩
          · simpa [writtenPTS] using h2 he
          · simpa using h3
      | some seg =>
        cases hrot :
            (idr && durationReached seg (rebase pts m.startPTS) m.hlsSegmentDuration) with
        | true =>
          rw [writeH264_open_rotate env now pts nalus m seg idr hseg hscan hrot] at hstep
          obtain ⟨h1, h2, h3, -, h5, -⟩ := finishH264_facts env _ _ _ _ _ r hstep
          simp only [writtenPTS, writePTS, List.filterMap_cons, List.filterMap_nil,
            List.nil_append] at h1 h2
          refine ⟨by simpa [writtenPTS] using h1, fun he => Or.inr ⟨?_, h5 he, ?_⟩⟩
          · simpa [writtenPTS] using h2 he
          · simpa using h3
        | false =>
          rw [writeH264_open_continue env now pts nalus m seg idr hseg hscan hrot] at hstep
          obtain ⟨h1, h2, h3, -, h5, -⟩ := finishH264_facts env _ _ _ _ _ r hstep
          simp only [writtenPTS, List.filterMap_nil, List.nil_append] at h1 h2
          refine ⟨by simpa [writtenPTS] using h1, fun he => Or.inr ⟨?_, h5 he, ?_⟩⟩
          · simpa [writtenPTS] using h2 he
          · simpa using h3
  | aac now pts aus =>
    simp only [step] at hstep
    simp only [Call.pts]
    by_cases hv : m.videoTrack = none
    · cases hseg : m.currentSegment with
      | none =>
        rw [writeAAC_audio_idle env now pts aus m hv hseg] at hstep
        obtain ⟨h1, h2, h3, -, -, h5⟩ := finishAAC_facts env _ _ _ _ r _ rfl hstep
        simp only [writtenPTS, writePTS, List.filterMap_cons, List.filterMap_nil,
          List.nil_append] at h1 h2
        refine ⟨by simpa [writtenPTS] using h1, fun he => Or.inr ⟨?_, h5 he, ?_⟩⟩
        · simpa [writtenPTS] using h2 he
        · simpa using h3
      | some seg =>
        cases hrot : (decide (seg.audioAUCount ≥ segmentMinAUCount)
            && durationReached seg (rebase pts m.startPTS) m.hlsSegmentDuration) with
        | true =>
          rw [writeAAC_audio_rotate env now pts aus m seg hv hseg hrot] at hstep
          obtain ⟨h1, h2, h3, -, -, h5⟩ := finishAAC_facts env _ _ _ _ r _ rfl hstep
          simp only [writtenPTS, writePTS, List.filterMap_cons, List.filterMap_nil,
            List.nil_append] at h1 h2
          refine ⟨by simpa [writtenPTS] using h1, fun he => Or.inr ⟨?_, h5 he, ?_⟩⟩
          · simpa [writtenPTS] using h2 he
          · simpa using h3
        | false =>
          rw [writeAAC_audio_continue env now pts aus m seg hv hseg hrot] at hstep
          obtain ⟨h1, h2, h3, -, -, h5⟩ := finishAAC_facts env _ _ _ _ r seg hseg hstep
          simp only [writtenPTS, List.filterMap_nil, List.nil_append] at h1 h2
          refine ⟨by simpa [writtenPTS] using h1, fun he => Or.inr ⟨?_, h5 he, ?_⟩⟩
          · simpa [writtenPTS] using h2 he
          · simpa using h3
    · cases hseg : m.currentSegment with
      | none =>
        rw [writeAAC_video_idle env now pts aus m hv hseg] at hstep
        cases hstep
        exact ⟨Or.inl rfl, fun _ => Or.inl ⟨rfl, rfl, rfl⟩⟩
      | some seg =>
        rw [writeAAC_video_open env now pts aus m seg hv hseg] at hstep
        obtain ⟨h1, h2, h3, -, -, h5⟩ := finishAAC_facts env _ _ _ _ r seg hseg hstep
        simp only [writtenPTS, List.filterMap_nil, List.nil_append] at h1 h2
        refine ⟨by simpa [writtenPTS] using h1, fun he => Or.inr ⟨?_, h5 he, ?_⟩⟩
        · simpa [writtenPTS] using h2 he
        · simpa using h3

/-! ## Stable cadence -/

/-- The rebased PTS of a unit `a` after the origin, when the generator's
`startPTS` is the origin `t0` up to wrap-around. -/
theorem rebase_cadence (t0 st a : Int) (h : wrap64 st = wrap64 t0) :
    rebase (durAdd t0 a) st = wrap64 (pcrOffset + a) := by
  unfold rebase durAdd durSub wrap64 pcrOffset millisecond at *
  norm_num at h ⊢
  omega

/-- Two rebased PTS that are `D` apart, up to wrap-around, differ by `D`. -/
theorem durSub_cadence (a D : Int) (hD : 0 < D) (hD2 : D < 2 ^ 63) :
    durSub (wrap64 (pcrOffset + (a + D))) (wrap64 (pcrOffset + a)) = D := by
  unfold durSub wrap64 pcrOffset millisecond
  norm_num at hD2 ⊢
  omega

/-- A list of `writeH264` calls whose scans complete runs to its end from a
generator whose open segment comes with an estimator. -/
theorem run_h264_returns (env : Env) (calls : List Call) :
    ∀ m : muxerTSGenerator,
      (∀ c ∈ calls, ∃ now pts nalus idr,
        c = Call.h264 now pts nalus ∧ idrPresent nalus = some idr) →
      (m.currentSegment ≠ none → m.videoDTSEst ≠ none) →
      ∃ rs, run env calls m = some rs := by
  induction calls with
  | nil => intro m _ _; exact ⟨[], rfl⟩
  | cons c cs ih =>
    intro m hc hinv
    obtain ⟨now, pts, nalus, idr, rfl, hscan⟩ := hc c (List.mem_cons_self _ _)
    obtain ⟨r, hr, hinv1⟩ := writeH264_returns env now pts nalus m idr hscan hinv
    obtain ⟨rs, hrs⟩ := ih r.m (fun c hcm => hc c (List.mem_cons_of_mem _ hcm)) hinv1
    exact ⟨r :: rs, by simp [run, step, hr, hrs]⟩

/-- The first of the calls of a cadence and the calls that follow it. -/
theorem cadenceCalls_succ (nows : Nat → Int) (units : Nat → List (List Nat)) (t0 D : Int)
    (first count : Nat) :
    cadenceCalls nows units t0 D first (count + 1)
      = Call.h264 (nows first) (durAdd t0 ((first : Int) * D)) (units first)
        :: cadenceCalls nows units t0 D (first + 1) count := by
  simp [cadenceCalls, List.range'_succ]

/-- The induction behind C13: the units `j + 1, j + 2, ...` on a generator whose
open segment started at the rebased PTS of the unit `j`. -/
theorem cadence_suffix (env : Env) (hsr : StartRule env) (D t0 : Int)
    (hD : 0 < D) (hD2 : D < 2 ^ 63) (nows : Nat → Int) (units : Nat → List (List Nat))
    (hidr : ∀ k, idrPresent (units k) = some true) (count : Nat) :
    ∀ (j : Nat) (m : muxerTSGenerator) (seg : muxerTSSegment) (rs : List Ret),
      m.currentSegment = some seg → seg.startPTS = some (wrap64 (pcrOffset + j * D)) →
      m.videoDTSEst ≠ none → wrap64 m.startPTS = wrap64 t0 → m.hlsSegmentDuration = D →
      run env (cadenceCalls nows units t0 D (j + 1) count) m = some rs →
      (∀ r ∈ rs, r.err = none) →
      rs.map (fun r => sealsAndReplaces r.events) = List.replicate count true ∧
      (pushed (eventsOf rs)).map (fun s => (s.startPTS, s.endPTS))
        = (List.range' j count).map
            (fun i : Nat =>
              (some (wrap64 (pcrOffset + (i : Int) * D)), wrap64 (pcrOffset + ((i : Int) + 1) * D))) := by
  induction count with
  | zero =>
    intro j m seg rs _ _ _ _ _ hrun _
    simp only [cadenceCalls, List.range'_zero, List.map_nil, run, Option.some.injEq] at hrun
    subst hrun
    simp [eventsOf, pushed]
  | succ count ih =>
    intro j m seg rs hseg hstart hest hst hdur hrun hok
    rw [cadenceCalls_succ] at hrun
    obtain ⟨r, rs1, hstep, hrest, rfl⟩ := run_cons_some env _ _ m rs hrun
    simp only [step] at hstep
    have herr : r.err = none := hok r (List.mem_cons_self _ _)
    obtain ⟨fed, hfed⟩ := Option.ne_none_iff_exists'.mp hest
    obtain ⟨hp, -, hd, hest1, hrot, -⟩ :=
      writeH264_open_ok env (nows (j + 1)) (durAdd t0 (((j + 1 : Nat) : Int) * D))
        (units (j + 1)) m seg true fed r hseg hfed (hidr (j + 1)) hstep herr hsr
    have hcast : (((j + 1 : Nat) : Int) * D) = (j : Int) * D + D := by
      push_cast; ring
    have hreb : rebase (durAdd t0 (((j + 1 : Nat) : Int) * D)) m.startPTS
        = wrap64 (pcrOffset + ((j : Int) * D + D)) := by
      rw [rebase_cadence t0 m.startPTS _ hst, hcast]
    rw [hreb, hdur] at hrot
    obtain ⟨hb, hpu, seg1, hs1, hst1⟩ := hrot (by
      simp only [durationReached, hstart, Bool.true_and, decide_eq_true_eq]
      rw [durSub_cadence _ D hD hD2])
    obtain ⟨ih1, ih2⟩ := ih (j + 1) r.m seg1 rs1 hs1
      (by rw [hst1, hcast]) (by simp [hest1]) (by rw [hp]; exact hst) (by rw [hd, hdur])
      hrest (fun r1 h1 => hok r1 (List.mem_cons_of_mem _ h1))
    refine ⟨?_, ?_⟩
    · simp only [List.map_cons, hb, ih1, List.replicate_succ]
    · simp only [eventsOf, pushed_append, hpu, List.singleton_append, List.map_cons, ih2,
        List.range'_succ, hstart]
      congr 2
      rw [add_mul, one_mul]

/-- C13. Stable cadence. For every target duration `D` with `0 < D` (a
`time.Duration`, so below `2^63`), every `t0` and every `n`, the `n + 1`
IDR-bearing units of PTS `t0, t0 + D, ..., t0 + n * D` are processed without
panic from a generator without open segment; when all calls succeed and the
start PTS of a segment is the PTS of its first write, every unit after the first
seals and replaces the segment, exactly `n` segments are pushed, and the segment
pushed at rank `i` (from 0) has `startPTS = pcrOffset + i * D` and
`endPTS = pcrOffset + (i + 1) * D` in `time.Duration` arithmetic, which are these
very integers when `pcrOffset + n * D` is below `2^63`. -/
theorem stable_cadence (env : Env) (m0 : muxerTSGenerator) (D t0 : Int) (n : Nat)
    (nows : Nat → Int) (units : Nat → List (List Nat))
    (hD : 0 < D) (hD2 : D < 2 ^ 63)
    (hidle : m0.currentSegment = none) (hdur : m0.hlsSegmentDuration = D)
    (hidr : ∀ k, idrPresent (units k) = some true) :
    ∃ rs, run env (cadenceCalls nows units t0 D 0 (n + 1)) m0 = some rs ∧
      (StartRule env → (∀ r ∈ rs, r.err = none) →
        rs.map (fun r => sealsAndReplaces r.events) = false :: List.replicate n true ∧
        (pushed (eventsOf rs)).length = n ∧
        (pushed (eventsOf rs)).map (fun s => (s.startPTS, s.endPTS))
          = (List.range n).map
              (fun i : Nat =>
              (some (wrap64 (pcrOffset + (i : Int) * D)), wrap64 (pcrOffset + ((i : Int) + 1) * D))) ∧
        (pcrOffset + n * D < 2 ^ 63 →
          (pushed (eventsOf rs)).map (fun s => (s.startPTS, s.endPTS))
            = (List.range n).map
                (fun i : Nat => (some (pcrOffset + (i : Int) * D), pcrOffset + ((i : Int) + 1) * D)))) := by
  obtain ⟨rs, hrun⟩ := run_h264_returns env (cadenceCalls nows units t0 D 0 (n + 1)) m0
    (by
      intro c hc
      simp only [cadenceCalls, List.mem_map] at hc
      obtain ⟨k, _, rfl⟩ := hc
      exact ⟨_, _, _, true, rfl, hidr k⟩)
    (by simp [hidle])
  refine ⟨rs, hrun, ?_⟩
  intro hsr hok
  rw [cadenceCalls_succ] at hrun
  obtain ⟨r, rs1, hstep, hrest, rfl⟩ := run_cons_some env _ _ m0 rs hrun
  simp only [step] at hstep
  have herr : r.err = none := hok r (List.mem_cons_self _ _)
  obtain ⟨hp, -, hd, hest1, hb, hpu, seg1, hs1, hst1⟩ :=
    writeH264_idle_ok env (nows 0) (durAdd t0 (((0 : Nat) : Int) * D)) (units 0) m0 r
      hidle (hidr 0) hstep herr hsr
  have hw0 : wrap64 (pcrOffset + ((0 : Nat) : Int) * D) = pcrOffset := by
    simp only [Nat.cast_zero, zero_mul, add_zero]
    decide
  obtain ⟨h1, h2⟩ := cadence_suffix env hsr D t0 hD hD2 nows units hidr n 0 r.m seg1 rs1
    hs1 (by rw [hst1, hw0])
    (by simp [hest1])
    (by
      rw [hp]
      unfold durAdd wrap64
      norm_num)
    (by rw [hd, hdur]) hrest (fun r1 hr1 => hok r1 (List.mem_cons_of_mem _ hr1))
  have hmap : (pushed (eventsOf (r :: rs1))).map (fun s => (s.startPTS, s.endPTS))
      = (List.range n).map
          (fun i : Nat =>
          (some (wrap64 (pcrOffset + (i : Int) * D)), wrap64 (pcrOffset + ((i : Int) + 1) * D))) := by
    simp only [eventsOf, pushed_append, hpu, List.nil_append, h2, List.range_eq_range']
  refine ⟨by simp only [List.map_cons, hb, h1], ?_, hmap, ?_⟩
  · have := congrArg List.length hmap
    simpa using this
  · intro hsmall
    rw [hmap]
    apply List.map_congr_left
    intro i hi
    have hin : (i : Int) + 1 ≤ n := by
      have := List.mem_range.mp hi
      exact_mod_cast this
    have hmul : ((i : Int) + 1) * D ≤ n * D := mul_le_mul_of_nonneg_right hin hD.le
    have hi0 : (0 : Int) ≤ (i : Int) * D := mul_nonneg (Int.natCast_nonneg i) hD.le
    have hpc : pcrOffset = 500000000 := by decide
    have e1 : wrap64 (pcrOffset + (i : Int) * D) = pcrOffset + (i : Int) * D := by
      apply wrap64_of_range <;> nlinarith
    have e2 : wrap64 (pcrOffset + ((i : Int) + 1) * D) = pcrOffset + ((i : Int) + 1) * D := by
      apply wrap64_of_range <;> nlinarith
    rw [e1, e2]


set_option maxRecDepth 40000 in
/-- Witness of C13: on the sample environment, three IDR units 2 s apart from
PTS 0 push two segments. -/
theorem stable_cadence_witness :
    ∃ rs, run sampleEnv (cadenceCalls (fun k => k) (fun _ => idrUnit) 0 (2 * second) 0 3)
        (sampleGenerator 1000) = some rs ∧
      (pushed (eventsOf rs)).length = 2 := by
  obtain ⟨rs, hrun, h⟩ :=
    stable_cadence sampleEnv (sampleGenerator 1000) (2 * second) 0 2 (fun k => k)
      (fun _ => idrUnit) (by decide) (by decide) rfl rfl (fun _ => rfl)
  have herr : (run sampleEnv (cadenceCalls (fun k => k) (fun _ => idrUnit) 0 (2 * second) 0 3)
      (sampleGenerator 1000)).map (fun rs => rs.map Ret.err)
      = some (List.replicate 3 none) := rfl
  rw [hrun] at herr
  simp only [Option.map_some', Option.some.injEq] at herr
  have hok : ∀ r ∈ rs, r.err = none := by
    intro r hr
    have : r.err ∈ rs.map Ret.err := List.mem_map_of_mem _ hr
    rw [herr] at this
    exact (List.mem_replicate.mp this).2
  exact ⟨rs, hrun, (h sampleEnv_startRule hok).2.1⟩

/-! ## The timestamps passed to the segment writes -/

/-- C14, as amended. Every presentation timestamp that a call of `writeH264` or
`writeAAC` passes to a segment write is `pcrOffset`, which is strictly positive,
when the call opens a segment, and `pts - startPTS + pcrOffset` when a segment
was open; without wrap-around the latter is the integer
`pts - startPTS + pcrOffset`, strictly positive exactly when
`pts > startPTS - pcrOffset`, in particular when the PTS of the unit is not
earlier than the origin. -/
theorem written_pts_value (env : Env) (c : Call) (m : muxerTSGenerator) (r : Ret)
    (hstep : step env c m = Outcome.returned r) :
    (∀ p ∈ writtenPTS r.events,
      p = if m.currentSegment = none then pcrOffset else rebase c.pts m.startPTS) ∧
    (m.currentSegment = none → ∀ p ∈ writtenPTS r.events, p = pcrOffset ∧ 0 < p) ∧
    (m.currentSegment ≠ none → -2 ^ 63 ≤ c.pts - m.startPTS →
      c.pts - m.startPTS + pcrOffset < 2 ^ 63 →
      ∀ p ∈ writtenPTS r.events, p = c.pts - m.startPTS + pcrOffset ∧
        (0 < p ↔ m.startPTS - pcrOffset < c.pts) ∧ (m.startPTS ≤ c.pts → 0 < p)) := by
  have hfacts := (step_facts env c m r hstep).1
  have hval : ∀ p ∈ writtenPTS r.events,
      p = if m.currentSegment = none then pcrOffset else rebase c.pts m.startPTS := by
    intro p hp
    rcases hfacts with h | h
    · rw [h] at hp; cases hp
    · rw [h] at hp
      simpa using hp
  have hpos : (0 : Int) < pcrOffset := by decide
  refine ⟨hval, ?_, ?_⟩
  · intro hidle p hp
    have := hval p hp
    rw [if_pos hidle] at this
    exact ⟨this, this ▸ hpos⟩
  · intro hopen h1 h2 p hp
    have := hval p hp
    rw [if_neg hopen, rebase_of_range _ _ h1 h2] at this
    subst this
    refine ⟨rfl, ⟨fun h => by linarith, fun h => by linarith⟩, fun h => by linarith⟩

set_option maxRecDepth 20000 in
/-- Counterexample to C14 as stated: on the sample environment the first segment
opens on a unit of PTS 1 s; the next unit has PTS 0 s and is written with the
presentation timestamp -0.5 s. -/
theorem written_pts_not_positive_sample :
    ∃ r1 r2, run sampleEnv [Call.h264 0 (1 * second) idrUnit, Call.h264 1 0 nonIDRUnit]
        (sampleGenerator 1000) = some [r1, r2] ∧
      r1.err = none ∧ r2.err = none ∧
      r2.events = [Event.feedDTS (-1500 * millisecond),
        Event.encodeAnnexB [[9, 240], [0x41, 0x9a, 0x24]],
        Event.segmentWriteH264 0 (501 * millisecond) (-500 * millisecond) false
          [0, 0, 0, 1, 9, 240, 0, 0, 0, 1, 0x41, 0x9a, 0x24]] ∧
      writtenPTS r2.events = [-500 * millisecond] ∧ ¬ (0 : Int) < -500 * millisecond := by
  refine ⟨_, _, rfl, rfl, rfl, rfl, rfl, ?_⟩
  decide

set_option maxRecDepth 20000 in
/-- Witness of C14 as amended: on the sample environment the unit of PTS 2.1 s
on the segment opened at 0 s is written with a positive PTS. -/
theorem written_pts_value_witness :
    ∃ r, step sampleEnv (Call.h264 200 (2100 * millisecond) idrUnit) openedGenerator
        = Outcome.returned r ∧
      writtenPTS r.events = [2600 * millisecond] ∧ ∀ p ∈ writtenPTS r.events, 0 < p := by
  obtain ⟨r, hr, hw⟩ : ∃ r,
      step sampleEnv (Call.h264 200 (2100 * millisecond) idrUnit) openedGenerator
        = Outcome.returned r ∧ writtenPTS r.events = [2600 * millisecond] := ⟨_, rfl, rfl⟩
  have h := (written_pts_value sampleEnv _ openedGenerator r hr).2.2 (by decide) (by decide)
    (by decide)
  exact ⟨r, hr, hw, fun p hp => (h p hp).2.2 (by decide)⟩

/-- C15. Opening from Idle. On a generator without open segment, a call of
`writeH264` whose NALU list has an IDR returns; it first creates a segment and a
DTS estimator, sets `startPTS` to the PTS of the unit and `startPCR` to the
clock; the estimator holds afterwards the one value fed for this unit; every
write it makes has the presentation timestamp `pcrOffset` = 500 ms, which is
`pts - startPTS + pcrOffset` for the new origin; on success there is exactly one
write and the current segment is the new segment as that write left it. The same
holds for `writeAAC` on a generator without video track (the packets can be
built), which creates no estimator and leaves `videoDTSEst` as it was. -/
theorem open_from_idle (env : Env) (now pts : Int) (m : muxerTSGenerator)
    (hseg : m.currentSegment = none) :
    (∀ nalus, idrPresent nalus = some true →
      ∃ ret, writeH264 env now pts nalus m = Outcome.returned ret ∧
        (∃ rest, ret.events = Event.newSegment :: Event.newDTSEstimator :: rest ∧
          Event.newSegment ∉ rest) ∧
        ret.m.startPTS = pts ∧ ret.m.startPCR = now ∧
        ret.m.videoDTSEst = some [durSub pcrOffset pts] ∧
        pcrOffset = 500 * millisecond ∧ rebase pts ret.m.startPTS = pcrOffset ∧
        (∀ p ∈ writtenPTS ret.events, p = pcrOffset) ∧
        (ret.err = none → writtenPTS ret.events = [pcrOffset] ∧
          ∃ dts enc, ret.m.currentSegment = some (env.segmentWriteH264
            (newMuxerTSSegment m.hlsSegmentMaxSize m.videoTrack m.writer)
            now dts pcrOffset true enc).1)) ∧
    (∀ aus pkts, m.videoTrack = none → makePackets m.audioTrack aus = some pkts →
      ∃ ret, writeAAC env now pts aus m = Outcome.returned ret ∧
        (∃ rest, ret.events = Event.newSegment :: rest ∧
          Event.newSegment ∉ rest ∧ Event.newDTSEstimator ∉ rest) ∧
        ret.m.startPTS = pts ∧ ret.m.startPCR = now ∧
        ret.m.videoDTSEst = m.videoDTSEst ∧
        rebase pts ret.m.startPTS = pcrOffset ∧
        (∀ p ∈ writtenPTS ret.events, p = pcrOffset) ∧
        (ret.err = none → writtenPTS ret.events = [pcrOffset] ∧
          ∃ enc, ret.m.currentSegment = some (env.segmentWriteAAC
            (newMuxerTSSegment m.hlsSegmentMaxSize m.videoTrack m.writer)
            now pcrOffset enc aus.length).1)) := by
  have hreb : rebase pts pts = pcrOffset := by
    simp only [rebase, durSub, sub_self]
    decide
  refine ⟨?_, ?_⟩
  · intro nalus hscan
    rw [writeH264_idle_open env now pts nalus m hseg hscan]
    rcases finishH264_cases env pcrOffset true nalus [Event.newSegment, Event.newDTSEstimator]
      { m with
        currentSegment := some (newMuxerTSSegment m.hlsSegmentMaxSize m.videoTrack m.writer)
        startPCR := now
        startPTS := pts
        videoDTSEst := some [] } [] _ rfl rfl
      with ⟨e, _, h⟩ | ⟨enc, seg1, e, _, _, h⟩ | ⟨enc, seg1, _, hw, h⟩
    · refine ⟨_, h, ⟨_, rfl, by simp [newMuxerTSSegment]⟩, rfl, rfl, rfl, rfl, hreb, ?_,
        by simp⟩
      simp [writtenPTS, writePTS, newMuxerTSSegment]
    · refine ⟨_, h, ⟨_, rfl, ?_⟩, rfl, rfl, rfl, rfl, hreb, ?_, by simp⟩
      · by_cases hb : seg1.bufLen > 0 <;> simp [hb]
      · by_cases hb : seg1.bufLen > 0 <;> simp [writtenPTS, writePTS, hb]
    · dsimp only at hw
      refine ⟨_, h, ⟨_, rfl, by simp⟩, rfl, rfl, rfl, rfl, hreb, ?_, fun _ => ⟨?_,
        durAdd (env.dtsFeed ([] ++ [durSub pcrOffset pts])) pcrOffset, enc, ?_⟩⟩
      · simp [writtenPTS, writePTS]
      · simp [writtenPTS, writePTS]
      · simp only [hw]
  · intro aus pkts hv hpk
    rw [writeAAC_audio_idle env now pts aus m hv hseg]
    rcases finishAAC_cases env pcrOffset aus [Event.newSegment]
      { m with
        currentSegment := some (newMuxerTSSegment m.hlsSegmentMaxSize m.videoTrack m.writer)
        startPCR := now
        startPTS := pts } pkts _ hpk rfl
      with ⟨e, _, h⟩ | ⟨enc, seg1, e, _, _, h⟩ | ⟨enc, seg1, _, hw, h⟩
    · refine ⟨_, h, ⟨_, rfl, by simp, by simp⟩, rfl, rfl, rfl, hreb, ?_, by simp⟩
      simp [writtenPTS, writePTS]
    · refine ⟨_, h, ⟨_, rfl, ?_, ?_⟩, rfl, rfl, rfl, hreb, ?_, by simp⟩
      · by_cases hb : seg1.bufLen > 0 <;> simp [hb]
      · by_cases hb : seg1.bufLen > 0 <;> simp [hb]
      · by_cases hb : seg1.bufLen > 0 <;> simp [writtenPTS, writePTS, hb]
    · dsimp only at hw
      refine ⟨_, h, ⟨_, rfl, by simp, by simp⟩, rfl, rfl, rfl, hreb, ?_,
        fun _ => ⟨?_, enc, ?_⟩⟩
      · simp [writtenPTS, writePTS]
      · simp [writtenPTS, writePTS]
      · simp only [hw]

set_option maxRecDepth 20000 in
/-- Witness of C15: the first unit of the scenario on the sample generator, and
a first audio unit on an audio-only generator. -/
theorem open_from_idle_witness :
    (∃ ret, writeH264 sampleEnv 100 (1 * second) idrUnit (sampleGenerator 1000)
        = Outcome.returned ret ∧ ret.m.startPTS = 1 * second ∧
      writtenPTS ret.events = [500 * millisecond]) ∧
    (∃ ret, writeAAC sampleEnv 100 (1 * second) [[1, 2]]
        (newMuxerTSGenerator 3 (2 * second) 1000 none (some sampleAudioTrack))
        = Outcome.returned ret ∧ ret.m.startPTS = 1 * second ∧
      writtenPTS ret.events = [500 * millisecond]) := by
  refine ⟨?_, ?_⟩
  · obtain ⟨ret, h, _, hp, _, _, _, _, _, hok⟩ :=
      (open_from_idle sampleEnv 100 (1 * second) (sampleGenerator 1000) rfl).1 idrUnit rfl
    have herr : ret.err = none := by
      have h2 : writeH264 sampleEnv 100 (1 * second) idrUnit (sampleGenerator 1000)
          = Outcome.returned ret := h
      have h3 : ∃ r0, writeH264 sampleEnv 100 (1 * second) idrUnit (sampleGenerator 1000)
          = Outcome.returned r0 ∧ r0.err = none := ⟨_, rfl, rfl⟩
      obtain ⟨r0, h4, h5⟩ := h3
      rw [h2] at h4
      cases h4
      exact h5
    exact ⟨ret, h, hp, (hok herr).1⟩
  · obtain ⟨ret, h, _, hp, _, _, _, _, hok⟩ :=
      (open_from_idle sampleEnv 100 (1 * second)
        (newMuxerTSGenerator 3 (2 * second) 1000 none (some sampleAudioTrack)) rfl).2
        [[1, 2]] _ rfl rfl
    have herr : ret.err = none := by
      have h3 : ∃ r0, writeAAC sampleEnv 100 (1 * second) [[1, 2]]
          (newMuxerTSGenerator 3 (2 * second) 1000 none (some sampleAudioTrack))
          = Outcome.returned r0 ∧ r0.err = none := ⟨_, rfl, rfl⟩
      obtain ⟨r0, h4, h5⟩ := h3
      rw [h] at h4
      cases h4
      exact h5
    exact ⟨ret, h, hp, (hok herr).1⟩

/-- C16, as amended. A call of `writeH264` that reaches the estimator (the scan
of the NALUs completes with the flag `idr`, a segment is open or the unit has an
IDR, the estimator exists) returns and feeds exactly one value `v` to the DTS
estimator, after the values `fed` that the estimator of the open segment had
received (none when the call opens a segment); every segment write of the call
carries the decode timestamp `Feed(v) + pcrOffset`, the output of the estimator
for that feed plus `pcrOffset`, and the rebased PTS of the unit as presentation
timestamp; a call that succeeds makes such a write. -/
theorem writeH264_dts_from_estimator (env : Env) (now pts : Int) (nalus : List (List Nat))
    (m : muxerTSGenerator) (idr : Bool)
    (hscan : idrPresent nalus = some idr)
    (hinv : m.currentSegment ≠ none → m.videoDTSEst ≠ none)
    (hreach : m.currentSegment = none → idr = true) :
    ∃ ret v fed, writeH264 env now pts nalus m = Outcome.returned ret ∧
      (ret.events.filter (fun e => match e with
          | Event.feedDTS _ => true
          | _ => false)) = [Event.feedDTS v] ∧
      (m.currentSegment = none → fed = []) ∧
      (m.currentSegment ≠ none → m.videoDTSEst = some fed) ∧
      ret.m.videoDTSEst = some (fed ++ [v]) ∧
      (∀ startPCR dts p b enc, Event.segmentWriteH264 startPCR dts p b enc ∈ ret.events →
        dts = durAdd (env.dtsFeed (fed ++ [v])) pcrOffset ∧
        p = (if m.currentSegment = none then pcrOffset else rebase pts m.startPTS)) ∧
      (ret.err = none → ∃ startPCR p b enc,
        Event.segmentWriteH264 startPCR (durAdd (env.dtsFeed (fed ++ [v])) pcrOffset) p b enc
          ∈ ret.events) := by
  have hfin : ∀ (pts1 : Int) (pre : List Event) (m1 : muxerTSGenerator) (fed : List Int)
      (seg : muxerTSSegment), m1.videoDTSEst = some fed → m1.currentSegment = some seg →
      (pre.filter (fun e => match e with
          | Event.feedDTS _ => true
          | _ => false)) = [] →
      (∀ startPCR dts p b enc, Event.segmentWriteH264 startPCR dts p b enc ∉ pre) →
      ∃ ret v, finishH264 env pts1 idr nalus pre m1 = Outcome.returned ret ∧
        (ret.events.filter (fun e => match e with
            | Event.feedDTS _ => true
            | _ => false)) = [Event.feedDTS v] ∧
        ret.m.videoDTSEst = some (fed ++ [v]) ∧
        (∀ startPCR dts p b enc, Event.segmentWriteH264 startPCR dts p b enc ∈ ret.events →
          dts = durAdd (env.dtsFeed (fed ++ [v])) pcrOffset ∧ p = pts1) ∧
        (ret.err = none → ∃ startPCR p b enc,
          Event.segmentWriteH264 startPCR (durAdd (env.dtsFeed (fed ++ [v])) pcrOffset) p b enc
            ∈ ret.events) := by
    intro pts1 pre m1 fed seg hest hseg hpre hnw
    rcases finishH264_cases env pts1 idr nalus pre m1 fed seg hest hseg
      with ⟨e, _, h⟩ | ⟨enc, seg1, e, _, _, h⟩ | ⟨enc, seg1, _, _, h⟩
    · refine ⟨_, durSub pts1 m1.startPTS, h, ?_, rfl, ?_, by simp⟩
      · by_cases hb : seg.bufLen > 0 <;>
          simp [List.filter_append, hpre, hb, List.filter_cons]
      · intro startPCR dts p b enc hmem
        exfalso
        by_cases hb : seg.bufLen > 0 <;> simp [hb] at hmem <;> exact hnw _ _ _ _ _ hmem
    · refine ⟨_, durSub pts1 m1.startPTS, h, ?_, rfl, ?_, by simp⟩
      · by_cases hb : seg1.bufLen > 0 <;>
          simp [List.filter_append, hpre, hb, List.filter_cons]
      · intro startPCR dts p b enc1 hmem
        by_cases hb : seg1.bufLen > 0 <;> simp [hb] at hmem
        · rcases hmem with hmem | ⟨-, rfl, rfl, -, -⟩
          · exact absurd hmem (hnw _ _ _ _ _)
          · exact ⟨rfl, rfl⟩
        · rcases hmem with hmem | ⟨-, rfl, rfl, -, -⟩
          · exact absurd hmem (hnw _ _ _ _ _)
          · exact ⟨rfl, rfl⟩
    · refine ⟨_, durSub pts1 m1.startPTS, h, ?_, rfl, ?_, fun _ =>
        ⟨m1.startPCR, pts1, idr, enc, by simp⟩⟩
      · simp [List.filter_append, hpre, List.filter_cons]
      · intro startPCR dts p b enc1 hmem
        simp at hmem
        rcases hmem with hmem | ⟨-, rfl, rfl, -, -⟩
        · exact absurd hmem (hnw _ _ _ _ _)
        · exact ⟨rfl, rfl⟩
  cases hseg : m.currentSegment with
  | none =>
    have hi : idr = true := hreach hseg
    subst hi
    rw [writeH264_idle_open env now pts nalus m hseg hscan]
    obtain ⟨ret, v, h1, h2, h3, h4, h5⟩ := hfin pcrOffset
      [Event.newSegment, Event.newDTSEstimator]
      { m with
        currentSegment := some (newMuxerTSSegment m.hlsSegmentMaxSize m.videoTrack m.writer)
        startPCR := now
        startPTS := pts
        videoDTSEst := some [] } [] _ rfl rfl (by simp) (by simp)
    exact ⟨ret, v, [], h1, h2, fun _ => rfl, fun h => absurd rfl h, h3,
      by simpa using h4, h5⟩
  | some seg =>
    obtain ⟨fed, hest⟩ : ∃ fed, m.videoDTSEst = some fed :=
      Option.ne_none_iff_exists'.mp (hinv (by simp [hseg]))
    cases hrot : (idr && durationReached seg (rebase pts m.startPTS) m.hlsSegmentDuration) with
    | true =>
      rw [writeH264_open_rotate env now pts nalus m seg idr hseg hscan hrot]
      obtain ⟨ret, v, h1, h2, h3, h4, h5⟩ := hfin (rebase pts m.startPTS)
        [Event.pushSegment { seg with endPTS := rebase pts m.startPTS }, Event.newSegment]
        { m with
          currentSegment := some (newMuxerTSSegment m.hlsSegmentMaxSize m.videoTrack m.writer) }
        fed _ hest rfl (by simp) (by simp)
      exact ⟨ret, v, fed, h1, h2, fun h => by simp at h, fun _ => hest, h3,
        by simpa using h4, h5⟩
    | false =>
      rw [writeH264_open_continue env now pts nalus m seg idr hseg hscan hrot]
      obtain ⟨ret, v, h1, h2, h3, h4, h5⟩ := hfin (rebase pts m.startPTS) [] m fed seg
        hest hseg (by simp) (by simp)
      exact ⟨ret, v, fed, h1, h2, fun h => by simp at h, fun _ => hest, h3,
        by simpa using h4, h5⟩

set_option maxRecDepth 20000 in
/-- Witness of C16 as amended: the unit of PTS 2.1 s on the segment opened at
0 s of the sample generator. -/
theorem writeH264_dts_from_estimator_witness :
    ∃ ret v fed, writeH264 sampleEnv 200 (2100 * millisecond) idrUnit openedGenerator
        = Outcome.returned ret ∧
      openedGenerator.videoDTSEst = some fed ∧ ret.m.videoDTSEst = some (fed ++ [v]) := by
  obtain ⟨ret, v, fed, h, _, _, hfed, hest, _⟩ :=
    writeH264_dts_from_estimator sampleEnv 200 (2100 * millisecond) idrUnit openedGenerator
      true rfl (by decide) (by decide)
  exact ⟨ret, v, fed, h, hfed (by decide), hest⟩

set_option maxRecDepth 20000 in
/-- Counterexample to C16 as stated: on the sample generator a first unit of PTS
1 s is written with the presentation timestamp 0.5 s but the value fed to the
estimator is -0.5 s; the next unit, of PTS 1.04 s, is written with 0.54 s and
the value fed is -0.46 s. The decode timestamp is the output of the estimator
plus `pcrOffset`. -/
theorem writeH264_fed_value_sample :
    ∃ r1 r2, run sampleEnv [Call.h264 100 (1 * second) idrUnit,
        Call.h264 140 (1040 * millisecond) nonIDRUnit] (sampleGenerator 1000)
        = some [r1, r2] ∧
      r1.events = [Event.newSegment, Event.newDTSEstimator,
        Event.feedDTS (-500 * millisecond),
        Event.encodeAnnexB [[9, 240], [0x65, 0x88, 0x84]],
        Event.segmentWriteH264 100 (sampleDTSFeed [-500 * millisecond] + pcrOffset)
          (500 * millisecond) true [0, 0, 0, 1, 9, 240, 0, 0, 0, 1, 0x65, 0x88, 0x84]] ∧
      r2.events = [Event.feedDTS (-460 * millisecond),
        Event.encodeAnnexB [[9, 240], [0x41, 0x9a, 0x24]],
        Event.segmentWriteH264 100
          (sampleDTSFeed [-500 * millisecond, -460 * millisecond] + pcrOffset)
          (540 * millisecond) false [0, 0, 0, 1, 9, 240, 0, 0, 0, 1, 0x41, 0x9a, 0x24]] ∧
      (-500 * millisecond : Int) ≠ 500 * millisecond ∧
      (-460 * millisecond : Int) ≠ 540 * millisecond := by
  refine ⟨_, _, rfl, rfl, rfl, ?_, ?_⟩ <;> decide

/-! ## Order of the rebased timestamps -/

/-- The lists of `addToGroup` are sublists of the list with the PTS in front. -/
theorem addToGroup_sublist (p : Int) (l : List Int) (gs : List (List Int))
    (h : ∀ g ∈ gs, g.Sublist l) : ∀ g ∈ addToGroup p gs, g.Sublist (p :: l) := by
  intro g hg
  cases gs with
  | nil =>
    simp only [addToGroup, List.mem_singleton] at hg
    subst hg
    exact List.Sublist.cons₂ _ (List.nil_sublist _)
  | cons g0 gs1 =>
    simp only [addToGroup] at hg
    rcases List.mem_cons.mp hg with rfl | h1
    · exact List.Sublist.cons₂ _ (h g0 (List.mem_cons_self _ _))
    · exact List.Sublist.cons _ (h g (List.mem_cons_of_mem _ h1))

/-- The written PTS of one segment are among the written PTS of the trace, in
the same order. -/
theorem segmentPTS_sublist (es : List Event) :
    ∀ g ∈ segmentPTS es, g.Sublist (writtenPTS es) := by
  induction es with
  | nil =>
    intro g hg
    simp only [segmentPTS, List.mem_singleton] at hg
    subst hg
    exact List.Sublist.slnil
  | cons e es ih =>
    cases e with
    | newSegment =>
      intro g hg
      simp only [segmentPTS] at hg
      have hwr : writtenPTS (Event.newSegment :: es) = writtenPTS es := by
        simp [writtenPTS, writePTS]
      rw [hwr]
      rcases List.mem_cons.mp hg with rfl | h
      · exact List.nil_sublist _
      · exact ih g h
    | segmentWriteH264 startPCR dts pts idr enc =>
      have hwr : writtenPTS (Event.segmentWriteH264 startPCR dts pts idr enc :: es)
          = pts :: writtenPTS es := by
        simp [writtenPTS, writePTS]
      rw [hwr]
      exact addToGroup_sublist pts _ _ ih
    | segmentWriteAAC startPCR pts enc ausLen =>
      have hwr : writtenPTS (Event.segmentWriteAAC startPCR pts enc ausLen :: es)
          = pts :: writtenPTS es := by
        simp [writtenPTS, writePTS]
      rw [hwr]
      exact addToGroup_sublist pts _ _ ih
    | newDTSEstimator => simpa [segmentPTS, writtenPTS, writePTS] using ih
    | pushSegment seg => simpa [segmentPTS, writtenPTS, writePTS] using ih
    | feedDTS v => simpa [segmentPTS, writtenPTS, writePTS] using ih
    | encodeAnnexB nalus => simpa [segmentPTS, writtenPTS, writePTS] using ih
    | encodeADTS pkts => simpa [segmentPTS, writtenPTS, writePTS] using ih

/-- The induction behind C17, first half: along a trace of successful calls every
call wrote nothing or the one PTS `pts - origin + pcrOffset`, where the origin
is the `startPTS` of the generator at the end of the trace, which is the
`startPTS` at the beginning when a segment was open then. -/
theorem run_written_origin (env : Env) (calls : List Call) :
    ∀ (m : muxerTSGenerator) (rs : List Ret),
      run env calls m = some rs → (∀ r ∈ rs, r.err = none) →
      (∀ c ∈ calls, ∀ c1 ∈ calls,
        -2 ^ 63 ≤ c.pts - c1.pts ∧ c.pts - c1.pts + pcrOffset < 2 ^ 63) →
      (m.currentSegment ≠ none → ∀ c ∈ calls,
        -2 ^ 63 ≤ c.pts - m.startPTS ∧ c.pts - m.startPTS + pcrOffset < 2 ^ 63) →
      (m.currentSegment ≠ none → (finalOf m rs).startPTS = m.startPTS) ∧
      ∀ c r, (c, r) ∈ calls.zip rs →
        writtenPTS r.events = [] ∨
        writtenPTS r.events = [c.pts - (finalOf m rs).startPTS + pcrOffset] := by
  induction calls with
  | nil =>
    intro m rs hrun _ _ _
    simp only [run, Option.some.injEq] at hrun
    subst hrun
    simp [finalOf]
  | cons c cs ih =>
    intro m rs hrun hok hpair hopen
    obtain ⟨r, rs1, hstep, hrest, rfl⟩ := run_cons_some env c cs m rs hrun
    have herr : r.err = none := hok r (List.mem_cons_self _ _)
    have hok1 : ∀ r1 ∈ rs1, r1.err = none := fun r1 h1 => hok r1 (List.mem_cons_of_mem _ h1)
    have hpair1 : ∀ a ∈ cs, ∀ b ∈ cs,
        -2 ^ 63 ≤ a.pts - b.pts ∧ a.pts - b.pts + pcrOffset < 2 ^ 63 :=
      fun a ha b hb => hpair a (List.mem_cons_of_mem _ ha) b (List.mem_cons_of_mem _ hb)
    obtain ⟨hw, hsucc⟩ := step_facts env c m r hstep
    rcases hsucc herr with ⟨hidle, hm, hev⟩ | ⟨hwr, hcur, hst⟩
    · -- the call did nothing
      have hopen1 : r.m.currentSegment ≠ none → ∀ a ∈ cs,
          -2 ^ 63 ≤ a.pts - r.m.startPTS ∧ a.pts - r.m.startPTS + pcrOffset < 2 ^ 63 := by
        intro h
        rw [hm] at h
        exact absurd hidle h
      obtain ⟨_, ih2⟩ := ih r.m rs1 hrest hok1 hpair1 hopen1
      refine ⟨fun h => absurd hidle h, ?_⟩
      intro c1 r1 hmem
      simp only [List.zip_cons_cons, List.mem_cons, Prod.mk.injEq] at hmem
      rcases hmem with ⟨rfl, rfl⟩ | hmem
      · left
        simp [hev, writtenPTS]
      · exact ih2 c1 r1 hmem
    · -- the call wrote
      have hopen1 : r.m.currentSegment ≠ none → ∀ a ∈ cs,
          -2 ^ 63 ≤ a.pts - r.m.startPTS ∧ a.pts - r.m.startPTS + pcrOffset < 2 ^ 63 := by
        intro _ a ha
        rw [hst]
        by_cases hi : m.currentSegment = none
        · rw [if_pos hi]
          exact hpair a (List.mem_cons_of_mem _ ha) c (List.mem_cons_self _ _)
        · rw [if_neg hi]
          exact hopen hi a (List.mem_cons_of_mem _ ha)
      obtain ⟨ih1, ih2⟩ := ih r.m rs1 hrest hok1 hpair1 hopen1
      have hfin : (finalOf m (r :: rs1)).startPTS = r.m.startPTS := ih1 hcur
      refine ⟨?_, ?_⟩
      · intro hi
        rw [hfin, hst, if_neg hi]
      · intro c1 r1 hmem
        simp only [List.zip_cons_cons, List.mem_cons, Prod.mk.injEq] at hmem
        rcases hmem with ⟨rfl, rfl⟩ | hmem
        · right
          rw [hwr, hfin, hst]
          by_cases hi : m.currentSegment = none
          · simp [hi]
          · obtain ⟨h1, h2⟩ := hopen hi c1 (List.mem_cons_self _ _)
            simp only [if_neg hi]
            rw [rebase_of_range _ _ h1 h2]
        · exact ih2 c1 r1 hmem

/-- The induction behind C17, second half: when every call wrote nothing or the
one PTS `pts - o + pcrOffset` and the PTS of the calls do not decrease, the
written PTS of the trace do not decrease. -/
theorem run_written_sorted (env : Env) (o : Int) (calls : List Call) :
    ∀ (m : muxerTSGenerator) (rs : List Ret),
      run env calls m = some rs →
      (∀ c r, (c, r) ∈ calls.zip rs →
        writtenPTS r.events = [] ∨ writtenPTS r.events = [c.pts - o + pcrOffset]) →
      (calls.map Call.pts).Pairwise (· ≤ ·) →
      (writtenPTS (eventsOf rs)).Pairwise (· ≤ ·) ∧
      ∀ p ∈ writtenPTS (eventsOf rs), ∃ c ∈ calls, p = c.pts - o + pcrOffset := by
  induction calls with
  | nil =>
    intro m rs hrun _ _
    simp only [run, Option.some.injEq] at hrun
    subst hrun
    simp [eventsOf, writtenPTS]
  | cons c cs ih =>
    intro m rs hrun hw hmono
    obtain ⟨r, rs1, _, hrest, rfl⟩ := run_cons_some env c cs m rs hrun
    rw [List.map_cons, List.pairwise_cons] at hmono
    obtain ⟨ih1, ih2⟩ := ih r.m rs1 hrest
      (fun c1 r1 h => hw c1 r1 (by
        simp only [List.zip_cons_cons, List.mem_cons]
        exact Or.inr h))
      hmono.2
    have hhead := hw c r (by simp)
    simp only [eventsOf, writtenPTS_append]
    rcases hhead with h | h
    · rw [h, List.nil_append]
      refine ⟨ih1, ?_⟩
      intro p hp
      obtain ⟨c1, hc1, hp1⟩ := ih2 p hp
      exact ⟨c1, List.mem_cons_of_mem _ hc1, hp1⟩
    · rw [h, List.singleton_append]
      refine ⟨?_, ?_⟩
      · rw [List.pairwise_cons]
        refine ⟨?_, ih1⟩
        intro q hq
        obtain ⟨c1, hc1, hq1⟩ := ih2 q hq
        have := hmono.1 c1.pts (List.mem_map_of_mem _ hc1)
        rw [hq1]
        linarith
      · intro p hp
        rcases List.mem_cons.mp hp with rfl | hp1
        · exact ⟨c, List.mem_cons_self _ _, rfl⟩
        · obtain ⟨c1, hc1, hp2⟩ := ih2 p hp1
          exact ⟨c1, List.mem_cons_of_mem _ hc1, hp2⟩

/-- C17. Rebasing preserves order within a segment. Along every trace of
`writeH264` and `writeAAC` calls that starts without open segment, in which
every call succeeds, whose input PTS do not decrease and are close enough for
the rebasing not to wrap around, there is a single origin (the `startPTS` of the
generator at the end of the trace) such that every presentation timestamp
passed to a segment write is the integer `inputPTS - origin + pcrOffset`; the
timestamps written do not decrease along the trace and therefore within each
segment. -/
theorem rebased_pts_sorted (env : Env) (calls : List Call) (m : muxerTSGenerator)
    (rs : List Ret) (hidle : m.currentSegment = none)
    (hrun : run env calls m = some rs) (hok : ∀ r ∈ rs, r.err = none)
    (hmono : (calls.map Call.pts).Pairwise (· ≤ ·))
    (hnowrap : ∀ c ∈ calls, ∀ c1 ∈ calls,
      -2 ^ 63 ≤ c.pts - c1.pts ∧ c.pts - c1.pts + pcrOffset < 2 ^ 63) :
    (∀ c r, (c, r) ∈ calls.zip rs → ∀ p ∈ writtenPTS r.events,
      p = c.pts - (finalOf m rs).startPTS + pcrOffset) ∧
    (writtenPTS (eventsOf rs)).Pairwise (· ≤ ·) ∧
    ∀ g ∈ segmentPTS (eventsOf rs), g.Pairwise (· ≤ ·) := by
  obtain ⟨_, h1⟩ := run_written_origin env calls m rs hrun hok hnowrap
    (fun h => absurd hidle h)
  obtain ⟨h2, _⟩ := run_written_sorted env (finalOf m rs).startPTS calls m rs hrun h1 hmono
  refine ⟨?_, h2, ?_⟩
  · intro c r hmem p hp
    rcases h1 c r hmem with h | h
    · rw [h] at hp; cases hp
    · rw [h] at hp
      simpa using hp
  · intro g hg
    exact List.Pairwise.sublist (segmentPTS_sublist _ g hg) h2

set_option maxRecDepth 40000 in
/-- Witness of C17: audio and video units in turn on the sample environment; two
segments are written, with the PTS 0.5 s, 0.52 s and 2.6 s, 2.62 s. -/
theorem rebased_pts_sorted_witness :
    ∃ rs, run sampleEnv avCalls (sampleGenerator 1000) = some rs ∧
      segmentPTS (eventsOf rs) = [[], [500 * millisecond, 520 * millisecond],
        [2600 * millisecond, 2620 * millisecond]] ∧
      ∀ g ∈ segmentPTS (eventsOf rs), g.Pairwise (· ≤ ·) := by
  obtain ⟨rs, hrun, hseg, herr⟩ : ∃ rs, run sampleEnv avCalls (sampleGenerator 1000) = some rs ∧
      segmentPTS (eventsOf rs) = [[], [500 * millisecond, 520 * millisecond],
        [2600 * millisecond, 2620 * millisecond]] ∧
      rs.map Ret.err = List.replicate 6 none := ⟨_, rfl, rfl, rfl⟩
  refine ⟨rs, hrun, hseg,
    (rebased_pts_sorted sampleEnv avCalls (sampleGenerator 1000) rs rfl hrun ?_ ?_ ?_).2.2⟩
  · intro r hr
    have : r.err ∈ rs.map Ret.err := List.mem_map_of_mem _ hr
    rw [herr] at this
    exact (List.mem_replicate.mp this).2
  · decide
  · decide

/-! ## The NALUs handed to the encoder -/

/-- C18. AUD prepend. A call of `writeH264` that reaches the encoder (the scan
of the NALUs completes with the flag `idr`, a segment is open or the unit has an
IDR, the estimator exists) returns and hands exactly one list to
`h264.EncodeAnnexB`: the NALU `[9, 240]` followed by the NALUs of the unit in
their order, of length `len(nalus) + 1`; every segment write of the call carries
the flag `idr`, which is the result of the scan of the NALUs of the unit, and
the bytes that the encoder returned for that list. -/
theorem aud_prepended (env : Env) (now pts : Int) (nalus : List (List Nat))
    (m : muxerTSGenerator) (idr : Bool)
    (hscan : idrPresent nalus = some idr)
    (hinv : m.currentSegment ≠ none → m.videoDTSEst ≠ none)
    (hreach : m.currentSegment = none → idr = true) :
    ∃ ret, writeH264 env now pts nalus m = Outcome.returned ret ∧
      (ret.events.filter (fun e => match e with
          | Event.encodeAnnexB _ => true
          | _ => false)) = [Event.encodeAnnexB ([9, 240] :: nalus)] ∧
      ([9, 240] :: nalus).length = nalus.length + 1 ∧
      ([9, 240] :: nalus).tail = nalus ∧
      NALUTypeAccessUnitDelimiter = 9 ∧
      (∀ startPCR dts p b enc, Event.segmentWriteH264 startPCR dts p b enc ∈ ret.events →
        b = idr ∧ env.encodeAnnexB ([9, 240] :: nalus) = Except.ok enc) := by
  have hfin : ∀ (pts1 : Int) (pre : List Event) (m1 : muxerTSGenerator) (fed : List Int)
      (seg : muxerTSSegment), m1.videoDTSEst = some fed → m1.currentSegment = some seg →
      (pre.filter (fun e => match e with
          | Event.encodeAnnexB _ => true
          | _ => false)) = [] →
      (∀ startPCR dts p b enc, Event.segmentWriteH264 startPCR dts p b enc ∉ pre) →
      ∃ ret, finishH264 env pts1 idr nalus pre m1 = Outcome.returned ret ∧
        (ret.events.filter (fun e => match e with
            | Event.encodeAnnexB _ => true
            | _ => false)) = [Event.encodeAnnexB ([9, 240] :: nalus)] ∧
        (∀ startPCR dts p b enc, Event.segmentWriteH264 startPCR dts p b enc ∈ ret.events →
          b = idr ∧ env.encodeAnnexB ([9, 240] :: nalus) = Except.ok enc) := by
    intro pts1 pre m1 fed seg hest hseg hpre hnw
    rcases finishH264_cases env pts1 idr nalus pre m1 fed seg hest hseg
      with ⟨e, _, h⟩ | ⟨enc, seg1, e, henc, _, h⟩ | ⟨enc, seg1, henc, _, h⟩
    · refine ⟨_, h, ?_, ?_⟩
      · by_cases hb : seg.bufLen > 0 <;>
          simp [List.filter_append, hpre, hb, List.filter_cons, NALUTypeAccessUnitDelimiter]
      · intro startPCR dts p b enc hmem
        exfalso
        by_cases hb : seg.bufLen > 0 <;> simp [hb] at hmem <;> exact hnw _ _ _ _ _ hmem
    · refine ⟨_, h, ?_, ?_⟩
      · by_cases hb : seg1.bufLen > 0 <;>
          simp [List.filter_append, hpre, hb, List.filter_cons, NALUTypeAccessUnitDelimiter]
      · intro startPCR dts p b enc1 hmem
        have henc9 : env.encodeAnnexB ([9, 240] :: nalus) = Except.ok enc := henc
        by_cases hb : seg1.bufLen > 0 <;> simp [hb] at hmem
        · rcases hmem with hmem | ⟨-, -, -, rfl, rfl⟩
          · exact absurd hmem (hnw _ _ _ _ _)
          · exact ⟨rfl, henc9⟩
        · rcases hmem with hmem | ⟨-, -, -, rfl, rfl⟩
          · exact absurd hmem (hnw _ _ _ _ _)
          · exact ⟨rfl, henc9⟩
    · refine ⟨_, h, ?_, ?_⟩
      · simp [List.filter_append, hpre, List.filter_cons, NALUTypeAccessUnitDelimiter]
      · intro startPCR dts p b enc1 hmem
        have henc9 : env.encodeAnnexB ([9, 240] :: nalus) = Except.ok enc := henc
        simp at hmem
        rcases hmem with hmem | ⟨-, -, -, rfl, rfl⟩
        · exact absurd hmem (hnw _ _ _ _ _)
        · exact ⟨rfl, henc9⟩
  cases hseg : m.currentSegment with
  | none =>
    have hi : idr = true := hreach hseg
    subst hi
    rw [writeH264_idle_open env now pts nalus m hseg hscan]
    obtain ⟨ret, h1, h2, h3⟩ := hfin pcrOffset [Event.newSegment, Event.newDTSEstimator]
      { m with
        currentSegment := some (newMuxerTSSegment m.hlsSegmentMaxSize m.videoTrack m.writer)
        startPCR := now
        startPTS := pts
        videoDTSEst := some [] } [] _ rfl rfl (by simp) (by simp)
    exact ⟨ret, h1, h2, rfl, rfl, rfl, h3⟩
  | some seg =>
    obtain ⟨fed, hest⟩ : ∃ fed, m.videoDTSEst = some fed :=
      Option.ne_none_iff_exists'.mp (hinv (by simp [hseg]))
    cases hrot : (idr && durationReached seg (rebase pts m.startPTS) m.hlsSegmentDuration) with
    | true =>
      rw [writeH264_open_rotate env now pts nalus m seg idr hseg hscan hrot]
      obtain ⟨ret, h1, h2, h3⟩ := hfin (rebase pts m.startPTS)
        [Event.pushSegment { seg with endPTS := rebase pts m.startPTS }, Event.newSegment]
        { m with
          currentSegment := some (newMuxerTSSegment m.hlsSegmentMaxSize m.videoTrack m.writer) }
        fed _ hest rfl (by simp) (by simp)
      exact ⟨ret, h1, h2, rfl, rfl, rfl, h3⟩
    | false =>
      rw [writeH264_open_continue env now pts nalus m seg idr hseg hscan hrot]
      obtain ⟨ret, h1, h2, h3⟩ := hfin (rebase pts m.startPTS) [] m fed seg hest hseg
        (by simp) (by simp)
      exact ⟨ret, h1, h2, rfl, rfl, rfl, h3⟩

set_option maxRecDepth 20000 in
/-- Witness of C18: the first unit of the scenario on the sample generator. -/
theorem aud_prepended_witness :
    ∃ ret, writeH264 sampleEnv 100 0 idrUnit (sampleGenerator 1000) = Outcome.returned ret ∧
      Event.encodeAnnexB [[9, 240], [0x65, 0x88, 0x84]] ∈ ret.events := by
  obtain ⟨ret, h, hf, _⟩ :=
    aud_prepended sampleEnv 100 0 idrUnit (sampleGenerator 1000) true rfl (by decide)
      (fun _ => rfl)
  refine ⟨ret, h, ?_⟩
  have : Event.encodeAnnexB ([9, 240] :: idrUnit) ∈ ret.events.filter (fun e => match e with
      | Event.encodeAnnexB _ => true
      | _ => false) := by
    rw [hf]
    exact List.mem_singleton.mpr rfl
  exact (List.mem_filter.mp this).1

/-! ## The scan for an IDR -/

/-- C19. The IDR scan on well-formed input. When every NALU of the list is
non-empty (the empty list included) the scan completes, and its result is true
if and only if some NALU has a first byte whose low five bits are 5, whatever
its upper bits. The precondition is needed: an empty NALU that comes before any
IDR makes the scan index out of range, whatever follows it. -/
theorem idrPresent_total (nalus : List (List Nat)) :
    ((∀ n ∈ nalus, n ≠ []) →
      ∃ b, idrPresent nalus = some b ∧
        (b = true ↔ ∃ n ∈ nalus, ∃ x rest, n = x :: rest ∧ x % 32 = 5)) ∧
    (∀ front rest : List (List Nat),
      (∀ n ∈ front, ∃ x tl, n = x :: tl ∧ x % 32 ≠ 5) →
      nalus = front ++ [] :: rest → idrPresent nalus = none) := by
  have hand : ∀ x : Nat, x &&& 0x1F = x % 32 := fun x => Nat.and_pow_two_sub_one_eq_mod x 5
  refine ⟨?_, ?_⟩
  · induction nalus with
    | nil =>
      intro _
      exact ⟨false, rfl, by simp⟩
    | cons n rest ih =>
      intro hne
      obtain ⟨b, hb, hiff⟩ := ih fun k hk => hne k (List.mem_cons_of_mem _ hk)
      cases n with
      | nil => exact absurd rfl (hne [] (List.mem_cons_self _ _))
      | cons x tl =>
        by_cases hx : x % 32 = 5
        · refine ⟨true, ?_, ?_⟩
          · simp [idrPresent, hand, hx, NALUTypeIDR]
          · simp only [true_iff]
            exact ⟨x :: tl, List.mem_cons_self _ _, x, tl, rfl, hx⟩
        · refine ⟨b, ?_, ?_⟩
          · simp [idrPresent, hand, hx, NALUTypeIDR, hb]
          · rw [hiff]
            constructor
            · rintro ⟨k, hk, y, r, hky, hy⟩
              exact ⟨k, List.mem_cons_of_mem _ hk, y, r, hky, hy⟩
            · rintro ⟨k, hk, y, r, hky, hy⟩
              rcases List.mem_cons.mp hk with rfl | hk1
              · cases hky
                exact absurd hy hx
              · exact ⟨k, hk1, y, r, hky, hy⟩
  · intro front rest hfront heq
    subst heq
    induction front with
    | nil => rfl
    | cons n front ih =>
      obtain ⟨x, tl, rfl, hx⟩ := hfront n (List.mem_cons_self _ _)
      simp only [List.cons_append, idrPresent, hand, NALUTypeIDR, if_neg hx]
      exact ih fun k hk => hfront k (List.mem_cons_of_mem _ hk)

/-- Witness of C19: a unit with a parameter set and an IDR slice whose first byte
has other upper bits (0x25), and the same unit behind an empty NALU. -/
theorem idrPresent_total_witness :
    idrPresent [[0x67, 0x42], [0x25, 0x88]] = some true ∧
    idrPresent ([[0x67, 0x42]] ++ [] :: [[0x25, 0x88]]) = none := by
  refine ⟨?_, ?_⟩
  · obtain ⟨b, hb, hiff⟩ := (idrPresent_total [[0x67, 0x42], [0x25, 0x88]]).1 (by decide)
    rw [hb]
    have : b = true := hiff.mpr ⟨[0x25, 0x88], by simp, 0x25, [0x88], rfl, by decide⟩
    rw [this]
  · exact (idrPresent_total _).2 [[0x67, 0x42]] [[0x25, 0x88]]
      (by
        intro n hn
        simp only [List.mem_singleton] at hn
        subst hn
        exact ⟨0x67, [0x42], rfl, by decide⟩)
      rfl

/-! ## The estimator exists when a segment is open -/

/-- One call on a generator with a video track keeps the video track and keeps
an estimator with every open segment. -/
theorem step_estimator_inv (env : Env) (c : Call) (m : muxerTSGenerator) (r : Ret)
    (hv : m.videoTrack ≠ none) (hinv : m.currentSegment ≠ none → m.videoDTSEst ≠ none)
    (hstep : step env c m = Outcome.returned r) :
    r.m.videoTrack ≠ none ∧ (r.m.currentSegment ≠ none → r.m.videoDTSEst ≠ none) := by
  cases c with
  | h264 now pts nalus =>
    simp only [step] at hstep
    cases hscan : idrPresent nalus with
    | none => simp [writeH264, hscan] at hstep
    | some idr =>
      cases hseg : m.currentSegment with
      | none =>
        cases idr with
        | false =>
          rw [writeH264_idle_skip env now pts nalus m hseg hscan] at hstep
          cases hstep
          exact ⟨hv, hinv⟩
        | true =>
          rw [writeH264_idle_open env now pts nalus m hseg hscan] at hstep
          obtain ⟨-, -, -, h4, -, -, -, h8⟩ := finishH264_facts env _ _ _ _ _ r hstep
          exact ⟨by rw [h4]; exact hv, fun _ => h8⟩
      | some seg =>
        cases hrot :
            (idr && durationReached seg (rebase pts m.startPTS) m.hlsSegmentDuration) with
        | true =>
          rw [writeH264_open_rotate env now pts nalus m seg idr hseg hscan hrot] at hstep
          obtain ⟨-, -, -, h4, -, -, -, h8⟩ := finishH264_facts env _ _ _ _ _ r hstep
          exact ⟨by rw [h4]; exact hv, fun _ => h8⟩
        | false =>
          rw [writeH264_open_continue env now pts nalus m seg idr hseg hscan hrot] at hstep
          obtain ⟨-, -, -, h4, -, -, -, h8⟩ := finishH264_facts env _ _ _ _ _ r hstep
          exact ⟨by rw [h4]; exact hv, fun _ => h8⟩
  | aac now pts aus =>
    simp only [step] at hstep
    cases hseg : m.currentSegment with
    | none =>
      rw [writeAAC_video_idle env now pts aus m hv hseg] at hstep
      cases hstep
      exact ⟨hv, hinv⟩
    | some seg =>
      rw [writeAAC_video_open env now pts aus m seg hv hseg] at hstep
      obtain ⟨-, -, -, h4, h5, -⟩ := finishAAC_facts env _ _ _ _ r seg hseg hstep
      refine ⟨by rw [h4]; exact hv, fun _ => ?_⟩
      rw [h5]
      exact hinv (by simp [hseg])

/-- A trace on a generator with a video track keeps an estimator with every open
segment, at the end and after every call. -/
theorem run_estimator_inv (env : Env) (calls : List Call) :
    ∀ (m : muxerTSGenerator) (rs : List Ret),
      m.videoTrack ≠ none → (m.currentSegment ≠ none → m.videoDTSEst ≠ none) →
      run env calls m = some rs →
      ((finalOf m rs).currentSegment ≠ none → (finalOf m rs).videoDTSEst ≠ none) ∧
      ∀ r ∈ rs, r.m.currentSegment ≠ none → r.m.videoDTSEst ≠ none := by
  induction calls with
  | nil =>
    intro m rs _ hinv hrun
    simp only [run, Option.some.injEq] at hrun
    subst hrun
    exact ⟨hinv, by simp⟩
  | cons c cs ih =>
    intro m rs hv hinv hrun
    obtain ⟨r, rs1, hstep, hrest, rfl⟩ := run_cons_some env c cs m rs hrun
    obtain ⟨hv1, hinv1⟩ := step_estimator_inv env c m r hv hinv hstep
    obtain ⟨ih1, ih2⟩ := ih r.m rs1 hv1 hinv1 hrest
    refine ⟨ih1, ?_⟩
    intro r1 hr1
    rcases List.mem_cons.mp hr1 with rfl | h
    · exact hinv1
    · exact ih2 r1 h

set_option maxRecDepth 20000 in
/-- C20. Estimator-initialised invariant. In every state reached from
`newMuxerTSGenerator` with a video track by a sequence of `writeH264` and
`writeAAC` calls, succeeding or failing, an open segment comes with an
estimator, at the end of the sequence and after each of its calls, so that no
call of `writeH264` on such a state panics on a nil estimator. The video track
is needed: without it `writeAAC` opens a segment and leaves `videoDTSEst` nil,
and the call of `writeH264` that follows panics. -/
theorem estimator_initialised (env : Env) (calls : List Call)
    (hlsSegmentCount hlsSegmentDuration : Int) (hlsSegmentMaxSize : Nat)
    (videoTrack : TrackH264) (audioTrack : Option TrackAAC) (rs : List Ret)
    (hrun : run env calls (newMuxerTSGenerator hlsSegmentCount hlsSegmentDuration
      hlsSegmentMaxSize (some videoTrack) audioTrack) = some rs) :
    ((finalOf (newMuxerTSGenerator hlsSegmentCount hlsSegmentDuration
        hlsSegmentMaxSize (some videoTrack) audioTrack) rs).currentSegment ≠ none →
      (finalOf (newMuxerTSGenerator hlsSegmentCount hlsSegmentDuration
        hlsSegmentMaxSize (some videoTrack) audioTrack) rs).videoDTSEst ≠ none) ∧
    (∀ r ∈ rs, r.m.currentSegment ≠ none → r.m.videoDTSEst ≠ none) ∧
    (∀ now pts nalus,
      writeH264 env now pts nalus (finalOf (newMuxerTSGenerator hlsSegmentCount
        hlsSegmentDuration hlsSegmentMaxSize (some videoTrack) audioTrack) rs)
        ≠ Outcome.panicked Panic.nilDereference) ∧
    (∃ r, writeAAC sampleEnv 0 0 [[1, 2]]
        (newMuxerTSGenerator 3 (2 * second) 1000 none (some sampleAudioTrack))
        = Outcome.returned r ∧
      r.m.currentSegment ≠ none ∧ r.m.videoDTSEst = none ∧
      writeH264 sampleEnv 1 (40 * millisecond) idrUnit r.m
        = Outcome.panicked Panic.nilDereference) := by
  obtain ⟨h1, h2⟩ := run_estimator_inv env calls _ rs
    (by simp [newMuxerTSGenerator]) (by simp [newMuxerTSGenerator]) hrun
  refine ⟨h1, h2, ?_, ⟨_, rfl, by decide, rfl, rfl⟩⟩
  intro now pts nalus
  cases hscan : idrPresent nalus with
  | none => simp [writeH264, hscan]
  | some idr =>
    obtain ⟨ret, hret, _⟩ := writeH264_returns env now pts nalus _ idr hscan h1
    rw [hret]
    simp

set_option maxRecDepth 40000 in
/-- Witness of C20: audio and video units in turn on the sample generator. -/
theorem estimator_initialised_witness :
    ∃ rs, run sampleEnv avCalls (sampleGenerator 1000) = some rs ∧
      (finalOf (sampleGenerator 1000) rs).currentSegment ≠ none ∧
      (finalOf (sampleGenerator 1000) rs).videoDTSEst ≠ none := by
  obtain ⟨rs, hrun, hcur⟩ : ∃ rs, run sampleEnv avCalls (sampleGenerator 1000) = some rs ∧
      (finalOf (sampleGenerator 1000) rs).currentSegment ≠ none := ⟨_, rfl, by decide⟩
  have h := (estimator_initialised sampleEnv avCalls 3 (2 * second) 1000 sampleVideoTrack
    (some sampleAudioTrack) rs hrun).1
  exact ⟨rs, hrun, hcur, h hcur⟩

end hls
